import Mathlib

/-!
Verification of the Bragi protocol core (`src/daemon/bragi_common.c`).

This development gives a shallow embedding of the three areas of the file:

* the property codec (`bragi_get_property`, `bragi_set_property`),
* the chunked write framer (`bragi_calculate_buffer_size`,
  `bragi_write_to_handle`), and
* the dongle sub-device discovery protocol (`bragi_update_dongle_subdevs`),

and proves the stated properties about them.  Bytes are modelled as natural
numbers, buffers as lists of bytes, the USB transport as an oracle function
returning `Option` responses (`none` = transport failure), and the two kinds
of locks as boolean components of an explicit state, together with an event
trace recording lock operations and external calls.
-/

/-- Modelled from the spec: the numeric values of the protocol constants
(`BRAGI_MAGIC`, `BRAGI_GET`, `BRAGI_SET`, `BRAGI_WRITE_DATA`,
`BRAGI_CONTINUE_WRITE`, `BRAGI_LIGHTING_HANDLE`, `BRAGI_JUMBO_SIZE`) live in
`bragi_proto.h`, which is not part of the given sources.  The definitions
below are parametric in a record of those constants; no claim depends on the
concrete values. -/
structure BragiConsts where
  magic : ℕ
  getOp : ℕ
  setOp : ℕ
  write_data : ℕ
  continue_write : ℕ
  lighting_handle : ℕ
  jumbo : ℕ
  deriving DecidableEq

/-! ## Property codec

`bragi_get_property` builds a `BRAGI_JUMBO_SIZE`-byte request
`{BRAGI_MAGIC, BRAGI_GET, prop, 0}` (trailing bytes zero), performs a single
transaction, and decodes the response; `bragi_set_property` is the SET
analogue.  The transport (`usbrecv`) is an external collaborator, modelled
as a function from the request packet to an optional response. -/

/-- The request packet built by `bragi_get_property`
(`uchar pkt[BRAGI_JUMBO_SIZE] = {BRAGI_MAGIC, BRAGI_GET, prop, 0}`). -/
def bragi_get_request (c : BragiConsts) (prop : ℕ) : List ℕ :=
  [c.magic, c.getOp, prop, 0] ++ List.replicate (c.jumbo - 4) 0

/-- The request packet built by `bragi_set_property`
(`{BRAGI_MAGIC, BRAGI_SET, prop, 0, val&255, val>>8}`). -/
def bragi_set_request (c : BragiConsts) (prop val : ℕ) : List ℕ :=
  [c.magic, c.setOp, prop, 0, val % 256, val >>> 8] ++ List.replicate (c.jumbo - 6) 0

/-- `bragi_get_property`: returns the result (negative on error, as in the
source) together with the list of request packets handed to the transport. -/
def bragi_get_property (c : BragiConsts) (transact : List ℕ → Option (List ℕ))
    (prop : ℕ) : ℤ × List (List ℕ) :=
  let pkt := bragi_get_request c prop
  match transact pkt with
  | none => (-1, [pkt])
  | some response =>
    if response.getD 2 0 ≠ 0 then (-2, [pkt])
    else ((((response.getD 4 0) <<< 8) ||| response.getD 3 0 : ℕ), [pkt])

/-- `bragi_set_property`: returns the result (negative on error, `0` on
success) together with the list of request packets handed to the transport. -/
def bragi_set_property (c : BragiConsts) (transact : List ℕ → Option (List ℕ))
    (prop val : ℕ) : ℤ × List (List ℕ) :=
  let pkt := bragi_set_request c prop val
  match transact pkt with
  | none => (-1, [pkt])
  | some response =>
    if response.getD 2 0 ≠ 0 then (-2, [pkt])
    else (0, [pkt])

/-- Statement of claim C5: the property codec builds the documented GET/SET
request packets, performs exactly one transaction (no retry), surfaces
transport failure as `-1` and a non-zero response status byte as `-2` (two
distinct negative errors), and on GET success assembles the 16-bit value
little-endian from response bytes 3 and 4. -/
def BragiPropertyCodecOk (c : BragiConsts) (transact : List ℕ → Option (List ℕ))
    (prop val : ℕ) : Prop :=
  ((bragi_get_property c transact prop).2 =
      [[c.magic, c.getOp, prop, 0, 0, 0] ++ List.replicate (c.jumbo - 6) 0] ∧
    (bragi_get_request c prop).length = c.jumbo) ∧
  ((bragi_set_property c transact prop val).2 =
      [[c.magic, c.setOp, prop, 0, val % 256, val >>> 8] ++ List.replicate (c.jumbo - 6) 0] ∧
    (bragi_set_request c prop val).length = c.jumbo) ∧
  (transact (bragi_get_request c prop) = none →
    (bragi_get_property c transact prop).1 = -1) ∧
  (transact (bragi_set_request c prop val) = none →
    (bragi_set_property c transact prop val).1 = -1) ∧
  (∀ r, transact (bragi_get_request c prop) = some r →
    (r.getD 2 0 ≠ 0 → (bragi_get_property c transact prop).1 = -2) ∧
    (r.getD 2 0 = 0 →
      (bragi_get_property c transact prop).1 =
        ((r.getD 4 0 <<< 8) ||| r.getD 3 0 : ℕ) ∧
      (r.getD 3 0 < 256 →
        (bragi_get_property c transact prop).1 = 256 * r.getD 4 0 + r.getD 3 0))) ∧
  (∀ r, transact (bragi_set_request c prop val) = some r →
    (r.getD 2 0 ≠ 0 → (bragi_set_property c transact prop val).1 = -2) ∧
    (r.getD 2 0 = 0 → (bragi_set_property c transact prop val).1 = 0)) ∧
  ((-1 : ℤ) < 0 ∧ (-2 : ℤ) < 0 ∧ (-1 : ℤ) ≠ -2)

/-! ## Chunked write framer: buffer sizing

`bragi_calculate_buffer_size_common` computes, in 64-bit signed arithmetic,
`size_without_first = data_len - out_ep_packet_size + offset`; if that is
non-negative the packet count is `1 + size_without_first / (P - 3)`, plus one
more when the division leaves a remainder, and the result is
`count * out_ep_packet_size`; otherwise a single packet suffices.  `P` stands
for the device's `out_ep_packet_size`. -/

/-- `bragi_calculate_buffer_size_common` from the source.  The branch variable
is computed in `ℤ`, mirroring the `int64_t` cast in the C code; C truncated
division (`tdiv`/`tmod`) is used, and the `size_t` result is the `toNat` of
the signed product. -/
def bragi_calculate_buffer_size_common (P data_len offset : ℕ) : ℕ :=
  let size_without_first : ℤ := (data_len : ℤ) - (P : ℤ) + (offset : ℤ)
  if 0 ≤ size_without_first then
    let req_pkt_count : ℤ :=
      1 + size_without_first.tdiv ((P : ℤ) - 3) +
        (if size_without_first.tmod ((P : ℤ) - 3) ≠ 0 then 1 else 0)
    (req_pkt_count * (P : ℤ)).toNat
  else P

/-- `bragi_calculate_buffer_size`: the public entry point, with the 7-byte
first-packet header. -/
def bragi_calculate_buffer_size (P data_len : ℕ) : ℕ :=
  bragi_calculate_buffer_size_common P data_len 7

/-- `k` packets (one first packet of payload capacity `P - 7`, then `k - 1`
continuation packets of payload capacity `P - 3` each) cover `L` payload
bytes. -/
def bragi_covers (P L k : ℕ) : Prop :=
  1 ≤ k ∧ L ≤ (P - 7) + (k - 1) * (P - 3)

instance (P L k : ℕ) : Decidable (bragi_covers P L k) := by
  unfold bragi_covers; infer_instance

/-- Statement of claim C1: `bragi_calculate_buffer_size` returns `P` when
`L - P + 7 < 0` and `(1 + ceil((L - P + 7) / (P - 3))) * P` otherwise; the
result is a multiple of `P`, and dividing by `P` gives the least packet count
covering `L` bytes (one first packet of capacity `P - 7` plus continuation
packets of capacity `P - 3`). -/
def BragiBufferSizeOk (P L : ℕ) : Prop :=
  (((L : ℤ) - (P : ℤ) + 7 < 0) → bragi_calculate_buffer_size P L = P) ∧
  ((0 ≤ (L : ℤ) - (P : ℤ) + 7) →
    bragi_calculate_buffer_size P L = (1 + (L - (P - 7) + (P - 3) - 1) / (P - 3)) * P) ∧
  P ∣ bragi_calculate_buffer_size P L ∧
  bragi_covers P L (bragi_calculate_buffer_size P L / P) ∧
  (∀ k, bragi_covers P L k → bragi_calculate_buffer_size P L / P ≤ k)

/-! ## Chunked write framer: transmission

`bragi_write_to_handle_common` writes the first-packet header into the
buffer, transmits the first packet, then slides a window of one packet size
through the buffer, backing each window start up by 3 bytes, overwriting
those 3 bytes with a continuation header and transmitting the window, while
the window start stays below `data_len + offset`.

The USB transport (`usbrecv`) is modelled as an oracle indexed by the
transaction number: `none` is a transport failure (no response), `some r`
a response.  The external `bragi_check_success` helper (declared in
`bragi_common.h`, outside the given sources) is, per the spec, a pure
record/report of the response status; it is modelled by appending the
response status byte to the `statuses` field.  A transmitted packet is the
window of `out_ep_packet_size` bytes starting at the current position (the
spec fixes every wire packet to exactly the device's packet size). -/

/-- The three continuation-header bytes stamped at `off`
(`pkt_out[0] = BRAGI_MAGIC; pkt_out[1] = BRAGI_CONTINUE_WRITE;
pkt_out[2] = BRAGI_LIGHTING_HANDLE`). -/
def stampContinueHeader (c : BragiConsts) (buf : List ℕ) (off : ℕ) : List ℕ :=
  ((buf.set off c.magic).set (off + 1) c.continue_write).set (off + 2) c.lighting_handle

/-- The first-packet header (`pkt[0..2] = magic, WRITE_DATA, handle` and
`memcpy(pkt + 3, &data_len, 4)`, little-endian as in the source). -/
def writeFirstHeader (c : BragiConsts) (handle data_len : ℕ) (buf : List ℕ) : List ℕ :=
  ((((((buf.set 0 c.magic).set 1 c.write_data).set 2 handle).set 3
      (data_len % 256)).set 4 (data_len >>> 8 % 256)).set 5
      (data_len >>> 16 % 256)).set 6 (data_len >>> 24 % 256)

/-- Result of a chunked write: the C return value (`0` success, `1` transport
failure), the packets transmitted in order, the recorded continuation
response statuses, and the final buffer contents. -/
structure WriteResult where
  ret : ℕ
  sent : List (List ℕ)
  statuses : List ℕ
  buf : List ℕ
  deriving DecidableEq

/-- The continuation-packet loop of `bragi_write_to_handle_common`
(`while((pkt_out += out_ep_packet_size) < pkt + data_len + offset)`), with
`pkt_out` as an index into the buffer and an explicit fuel argument (the
caller passes fuel `data_len + offset`, an upper bound on the iteration
count for any real packet size). -/
def bragi_write_loop (c : BragiConsts) (P data_len offset : ℕ)
    (oracle : ℕ → Option (List ℕ)) :
    ℕ → ℕ → ℕ → List ℕ → List (List ℕ) → List ℕ → WriteResult
  | 0, _, _, buf, sent, statuses => ⟨0, sent, statuses, buf⟩
  | fuel + 1, pkt_out, tidx, buf, sent, statuses =>
    if pkt_out + P < data_len + offset then
      let off := pkt_out + P - 3
      let buf' := stampContinueHeader c buf off
      let packet := (buf'.drop off).take P
      match oracle tidx with
      | none => ⟨1, sent ++ [packet], statuses, buf'⟩
      | some resp =>
        bragi_write_loop c P data_len offset oracle fuel off (tidx + 1) buf'
          (sent ++ [packet]) (statuses ++ [resp.getD 2 0])
    else ⟨0, sent, statuses, buf⟩

/-- `bragi_write_to_handle_common`.  `ndebug` reflects the C preprocessor
flag `NDEBUG`: the buffer-size check only exists when `NDEBUG` is not
defined, and on failure the source reports via `ckb_fatal` and returns `0`
without transmitting anything. -/
def bragi_write_to_handle_common (c : BragiConsts) (ndebug : Bool) (P : ℕ)
    (oracle : ℕ → Option (List ℕ)) (pkt : List ℕ)
    (handle buf_len data_len offset : ℕ) : WriteResult :=
  if ¬ndebug ∧ buf_len < bragi_calculate_buffer_size_common P data_len offset then
    ⟨0, [], [], pkt⟩
  else
    let pkt1 := writeFirstHeader c handle data_len pkt
    let firstPkt := pkt1.take P
    match oracle 0 with
    | none => ⟨1, [firstPkt], [], pkt1⟩
    | some _ =>
      bragi_write_loop c P data_len offset oracle (data_len + offset) 0 1 pkt1 [firstPkt] []

/-- `bragi_write_to_handle`: public entry point with the 7-byte header. -/
def bragi_write_to_handle (c : BragiConsts) (ndebug : Bool) (P : ℕ)
    (oracle : ℕ → Option (List ℕ)) (pkt : List ℕ)
    (handle buf_len data_len : ℕ) : WriteResult :=
  bragi_write_to_handle_common c ndebug P oracle pkt handle buf_len data_len 7

/-- Statement of the amended claim C3 (what the source actually does with an
undersized buffer): in a debug build the call reports the violation and
returns without transmitting any packet, but its return value is `0` — the
same value a fully successful call returns; in a release build (`NDEBUG`
defined) the check is compiled out entirely, so the result does not depend
on `buf_len` at all and packets are transmitted from the undersized
buffer. -/
def BragiUndersizedBufferOk (c : BragiConsts) (P : ℕ) (oracle : ℕ → Option (List ℕ))
    (pkt : List ℕ) (handle buf_len data_len : ℕ) : Prop :=
  bragi_write_to_handle c false P oracle pkt handle buf_len data_len =
    ⟨0, [], [], pkt⟩ ∧
  ∀ buf_len', bragi_write_to_handle c true P oracle pkt handle buf_len data_len =
    bragi_write_to_handle c true P oracle pkt handle buf_len' data_len

/-- Statement of claim C2: with a valid buffer and an all-success transport,
`bragi_write_to_handle` transmits exactly
`bragi_calculate_buffer_size / P` packets; the first packet is the first `P`
buffer bytes and carries `[magic, WRITE_DATA, handle, payload length as 4
little-endian bytes]` in bytes 0..6; continuation packet `k` is the `P`
bytes at buffer offset `k * (P - 3)` whose first 3 bytes have been
overwritten with `[magic, CONTINUE_WRITE, BRAGI_LIGHTING_HANDLE]` — the
fixed lighting-handle constant, regardless of the caller's `handle`
argument; every packet is `P` bytes long. -/
def BragiWritePacketsOk (c : BragiConsts) (ndebug : Bool) (P : ℕ)
    (oracle : ℕ → Option (List ℕ)) (pkt : List ℕ) (handle data_len : ℕ) : Prop :=
  (bragi_write_to_handle c ndebug P oracle pkt handle pkt.length data_len).ret = 0 ∧
  (bragi_write_to_handle c ndebug P oracle pkt handle pkt.length data_len).sent.length =
    bragi_calculate_buffer_size P data_len / P ∧
  (bragi_write_to_handle c ndebug P oracle pkt handle pkt.length data_len).sent.getD 0 [] =
    (writeFirstHeader c handle data_len pkt).take P ∧
  ((bragi_write_to_handle c ndebug P oracle pkt handle pkt.length data_len).sent.getD
      0 []).take 7 =
    [c.magic, c.write_data, handle, data_len % 256, data_len >>> 8 % 256,
      data_len >>> 16 % 256, data_len >>> 24 % 256] ∧
  (∀ k, 1 ≤ k →
    k < (bragi_write_to_handle c ndebug P oracle pkt handle pkt.length data_len).sent.length →
    (bragi_write_to_handle c ndebug P oracle pkt handle pkt.length data_len).sent.getD k [] =
      [c.magic, c.continue_write, c.lighting_handle] ++
        (((writeFirstHeader c handle data_len pkt).drop (k * (P - 3) + 3)).take (P - 3))) ∧
  (∀ k,
    k < (bragi_write_to_handle c ndebug P oracle pkt handle pkt.length data_len).sent.length →
    ((bragi_write_to_handle c ndebug P oracle pkt handle pkt.length data_len).sent.getD
      k []).length = P)

/-- Statement of claim C4: the chunked write returns `1` exactly when a
transport failure occurred — the failing transaction is then the last
transmitted packet's (abort, no further packets) and all earlier
transactions succeeded; it returns `0` when every performed transaction
succeeded; and the return value and the transmitted packets depend on the
responses only through their success/failure pattern, so a non-zero
protocol-status byte neither aborts the iteration nor changes the result. -/
def BragiWriteErrorOk (c : BragiConsts) (ndebug : Bool) (P : ℕ)
    (oracle : ℕ → Option (List ℕ)) (pkt : List ℕ)
    (handle buf_len data_len : ℕ) : Prop :=
  ((bragi_write_to_handle c ndebug P oracle pkt handle buf_len data_len).ret = 0 ∨
    (bragi_write_to_handle c ndebug P oracle pkt handle buf_len data_len).ret = 1) ∧
  ((bragi_write_to_handle c ndebug P oracle pkt handle buf_len data_len).ret = 1 →
    1 ≤ (bragi_write_to_handle c ndebug P oracle pkt handle buf_len data_len).sent.length ∧
    oracle ((bragi_write_to_handle c ndebug P oracle pkt handle
      buf_len data_len).sent.length - 1) = none ∧
    ∀ j, j + 1 < (bragi_write_to_handle c ndebug P oracle pkt handle
      buf_len data_len).sent.length → (oracle j).isSome) ∧
  ((bragi_write_to_handle c ndebug P oracle pkt handle buf_len data_len).ret = 0 →
    ∀ j, j < (bragi_write_to_handle c ndebug P oracle pkt handle
      buf_len data_len).sent.length → (oracle j).isSome) ∧
  (∀ o₂ : ℕ → Option (List ℕ), (∀ n, (oracle n).isSome = (o₂ n).isSome) →
    (bragi_write_to_handle c ndebug P oracle pkt handle buf_len data_len).ret =
      (bragi_write_to_handle c ndebug P o₂ pkt handle buf_len data_len).ret ∧
    (bragi_write_to_handle c ndebug P oracle pkt handle buf_len data_len).sent =
      (bragi_write_to_handle c ndebug P o₂ pkt handle buf_len data_len).sent)

/-- Statement of claim C10: the status byte of the response to the first
WRITE_DATA packet is never inspected — two runs whose transports agree on
everything except the contents of the (successful) first response produce
identical results in every component: return value, packets, recorded
statuses, and final buffer. -/
def BragiFirstResponseIgnoredOk (c : BragiConsts) (ndebug : Bool) (P : ℕ)
    (pkt : List ℕ) (handle buf_len data_len : ℕ)
    (o₁ o₂ : ℕ → Option (List ℕ)) : Prop :=
  bragi_write_to_handle c ndebug P o₁ pkt handle buf_len data_len =
    bragi_write_to_handle c ndebug P o₂ pkt handle buf_len data_len

/-! ## Device discovery and lifecycle protocol

`bragi_update_dongle_subdevs` reconciles the dongle's `children` array with
a hardware presence bitmask under two locks: the dongle's children-set lock
(`cmutex`, boolean `cmutexHeld`) and a per-pool-entry lifecycle lock
(`dmutex`, boolean `dmutexHeld`).  The device pool is the `keyboard` array;
the scan covers indices `1 .. DEV_MAX - 1` where `DEV_MAX` is the pool
length.  External collaborators (`closeusb`, `setupusb`, the USB property
reads of the codec) are recorded in an event trace; the VID/PID read
results come from an oracle indexed by pool slot and property id. -/

/-- Modelled from the spec: the device status enumeration is owned by the
external device-pool collaborator; this core relies only on `Disconnected`
being the least value, with `Connecting` above it. -/
def DEV_STATUS_DISCONNECTED : ℕ := 0

/-- Modelled from the spec: see `DEV_STATUS_DISCONNECTED`. -/
def DEV_STATUS_CONNECTING : ℕ := 1

/-- Modelled from the spec: the property ids `BRAGI_VID`/`BRAGI_PID` live in
`bragi_proto.h` (outside the given sources); their values are immaterial and
only label the two discovery-time property reads. -/
def BRAGI_VID : ℕ := 0x11

/-- Modelled from the spec: see `BRAGI_VID`. -/
def BRAGI_PID : ℕ := 0x12

/-- Modelled from the spec: abstract tag standing for the provisional
`vtable_bragi_mouse` command table copied into a new sub-device. -/
def vtable_bragi_mouse_tag : ℕ := 1

/-- One `usbdevice` pool entry, restricted to the fields the discovery
protocol touches.  The lifecycle lock (`dmutex`) is a boolean:
`true` = held. -/
structure SubDev where
  status : ℕ
  dmutexHeld : Bool
  fwversion : ℕ
  parent : Option Unit
  out_ep_packet_size : ℕ
  vtable : ℕ
  bragi_child_id : ℕ
  vendor : ℕ
  product : ℕ
  deriving DecidableEq

instance : Inhabited SubDev := ⟨⟨0, false, 0, none, 0, 0, 0, 0, 0⟩⟩

/-- The dongle state seen by `bragi_update_dongle_subdevs`: its packet size,
its children-set lock, its `children` array (optional pool indices, slot
`i - 1` for child id `i`), and the device pool. -/
structure DongleState where
  out_ep_packet_size : ℕ
  cmutexHeld : Bool
  children : List (Option ℕ)
  pool : List SubDev
  deriving DecidableEq

/-- Trace events: lock operations, the external `closeusb`/`setupusb`
calls, the USB property transactions and the no-free-slot report. -/
inductive DiscEvent where
  | lockChildren
  | unlockChildren
  | lockDev (idx : ℕ)
  | trylockDev (idx : ℕ) (acquired : Bool)
  | unlockDev (idx : ℕ)
  | closeDev (idx : ℕ)
  | usbTransaction (idx : ℕ) (prop : ℕ)
  | setupDev (idx : ℕ)
  | reportNoFree
  deriving DecidableEq

/-- Point update of a pool entry (no-op when the index is out of range). -/
def modifyPool (pool : List SubDev) (i : ℕ) (f : SubDev → SubDev) : List SubDev :=
  match pool[i]? with
  | some d => pool.set i (f d)
  | none => pool

/-- Disconnect handling for one child slot `i`: when bit `i` is clear and
the slot is occupied, blocking-acquire the child's lifecycle lock, close it
(external `closeusb`, recorded as an event), clear the slot, release the
lock. -/
def disconnectStep (prop : ℕ) (i : ℕ) (s : DongleState) (ev : List DiscEvent) :
    DongleState × List DiscEvent :=
  if (prop >>> i) % 2 = 1 then (s, ev)
  else
    match s.children.getD (i - 1) none with
    | none => (s, ev)
    | some ci =>
      let s1 := { s with
        pool := modifyPool s.pool ci (fun d => { d with dmutexHeld := true }) }
      let s2 := { s1 with children := s1.children.set (i - 1) none }
      let s3 := { s2 with
        pool := modifyPool s2.pool ci (fun d => { d with dmutexHeld := false }) }
      (s3, ev ++ [.lockDev ci, .closeDev ci, .unlockDev ci])

/-- The disconnect sweep over the child slots (`for(int i = 1; i < 8; i++)`,
first loop of `bragi_update_dongle_subdevs`). -/
def disconnectSweep (prop : ℕ) : List ℕ → DongleState → List DiscEvent →
    DongleState × List DiscEvent
  | [], s, ev => (s, ev)
  | i :: rest, s, ev =>
    let p := disconnectStep prop i s ev
    disconnectSweep prop rest p.1 p.2

/-- The fields assigned to a claimed pool entry by the connect sweep: status
`Connecting`, the invalid firmware sentinel `1234`, parent set to the
dongle, packet size copied from the dongle, the provisional mouse vtable,
child id `i`, and VID/PID results of the two property reads (a `long`
result stored into a `ushort` field, hence `% 65536`).  The lifecycle lock
remains held. -/
def bragi_claim_fields (s : DongleState) (oracle : ℕ → ℕ → ℤ) (i idx : ℕ)
    (d : SubDev) : SubDev :=
  { d with
    dmutexHeld := true
    status := DEV_STATUS_CONNECTING
    fwversion := 1234
    parent := some ()
    out_ep_packet_size := s.out_ep_packet_size
    vtable := vtable_bragi_mouse_tag
    bragi_child_id := i
    vendor := ((oracle idx BRAGI_VID) % 65536).toNat
    product := ((oracle idx BRAGI_PID) % 65536).toNat }

/-- The pool scan of the connect sweep (`for(int index = 1; index < DEV_MAX;
index++)`): a non-blocking lifecycle-lock attempt per entry, skipping held
or already-initialised entries; the first free entry is claimed, inserted at
`children[i-1]`, the children-set lock is released before the two USB
property reads, and the function returns immediately after `setupusb`
(boolean `true`); if the scan is exhausted the failure is reported
(`ckb_err("No more free devices")`) and the sweep continues (`false`). -/
def connectScan (oracle : ℕ → ℕ → ℤ) (i : ℕ) :
    List ℕ → DongleState → List DiscEvent → DongleState × List DiscEvent × Bool
  | [], s, ev => (s, ev ++ [.reportNoFree], false)
  | idx :: rest, s, ev =>
    let d := s.pool.getD idx default
    if d.dmutexHeld then
      connectScan oracle i rest s (ev ++ [.trylockDev idx false])
    else if DEV_STATUS_DISCONNECTED < d.status then
      connectScan oracle i rest s (ev ++ [.trylockDev idx true, .unlockDev idx])
    else
      ({ s with
          pool := modifyPool s.pool idx (bragi_claim_fields s oracle i idx)
          children := s.children.set (i - 1) (some idx)
          cmutexHeld := false },
       ev ++ [.trylockDev idx true, .unlockChildren,
         .usbTransaction idx BRAGI_VID, .usbTransaction idx BRAGI_PID, .setupDev idx],
       true)

/-- The connect sweep over the child slots (second loop of
`bragi_update_dongle_subdevs`): bits that are clear or whose slot is already
occupied are skipped; otherwise the pool is scanned, and a successful claim
returns immediately. -/
def connectSweep (oracle : ℕ → ℕ → ℤ) (prop : ℕ) :
    List ℕ → DongleState → List DiscEvent → DongleState × List DiscEvent × Bool
  | [], s, ev => (s, ev, false)
  | i :: rest, s, ev =>
    if (prop >>> i) % 2 = 1 then
      if (s.children.getD (i - 1) none).isSome then
        connectSweep oracle prop rest s ev
      else
        match connectScan oracle i (List.range' 1 (s.pool.length - 1)) s ev with
        | (s', ev', true) => (s', ev', true)
        | (s', ev', false) => connectSweep oracle prop rest s' ev'
    else
      connectSweep oracle prop rest s ev

/-- `bragi_update_dongle_subdevs`: take the children-set lock, run the
disconnect sweep, then the connect sweep; on the early-return path the
children-set lock has already been released inside the scan, otherwise it is
released at the end. -/
def bragi_update_dongle_subdevs (oracle : ℕ → ℕ → ℤ) (s₀ : DongleState) (prop : ℕ) :
    DongleState × List DiscEvent :=
  let s := { s₀ with cmutexHeld := true }
  let p := disconnectSweep prop [1, 2, 3, 4, 5, 6, 7] s [.lockChildren]
  match connectSweep oracle prop [1, 2, 3, 4, 5, 6, 7] p.1 p.2 with
  | (s2, ev2, true) => (s2, ev2)
  | (s2, ev2, false) => ({ s2 with cmutexHeld := false }, ev2 ++ [.unlockChildren])

/-- Child slot `i` requests a connect: its presence bit is set and its slot
is empty. -/
def needsSlot (prop : ℕ) (s : DongleState) (i : ℕ) : Prop :=
  (prop >>> i) % 2 = 1 ∧ s.children.getD (i - 1) none = none

instance (prop : ℕ) (s : DongleState) (i : ℕ) : Decidable (needsSlot prop s i) := by
  unfold needsSlot; infer_instance

/-- A pool entry is free for claiming: lifecycle lock not held and status
still `Disconnected`. -/
def freeDev (d : SubDev) : Prop :=
  d.dmutexHeld = false ∧ ¬ DEV_STATUS_DISCONNECTED < d.status

instance (d : SubDev) : Decidable (freeDev d) := by
  unfold freeDev; infer_instance

/-- Events a failed scan may record. -/
def isSkipEv : DiscEvent → Bool
  | .trylockDev _ _ => true
  | .unlockDev _ => true
  | .reportNoFree => true
  | _ => false

/-- Events the disconnect sweep may record. -/
def isDcEv : DiscEvent → Bool
  | .lockDev _ => true
  | .closeDev _ => true
  | .unlockDev _ => true
  | _ => false

/-- USB transactions of the connect sweep. -/
def isUsbEv : DiscEvent → Bool
  | .usbTransaction _ _ => true
  | _ => false

/-- Statement of claim C6: the connect sweep processes at most one newly
connected sub-device per invocation.  First conjunct: if `i` is the first
listed bit that is set with an empty slot, and `idx` is the first free pool
entry in scan order, then the sweep claims exactly `idx` (status
`Connecting`, parent = the dongle, the dongle's packet size, child id `i`,
lifecycle lock still held), inserts it at `children[i-1]`, releases the
children-set lock before the two VID/PID transactions (visible in the
trailing event block), and returns immediately after `setupusb` — the trace
ends there and no further bit is scanned.  Second conjunct: if no pool entry
is free, every needy bit is reported (`reportNoFree`) and the sweep
continues through all bits, changing nothing. -/
def BragiConnectSweepOk (oracle : ℕ → ℕ → ℤ) (prop : ℕ) (s : DongleState)
    (ev : List DiscEvent) : Prop :=
  (∀ pre i post, [1, 2, 3, 4, 5, 6, 7] = pre ++ i :: post →
    (∀ j ∈ pre, ¬ needsSlot prop s j) → needsSlot prop s i →
    ∀ preIdx idx postIdx,
      List.range' 1 (s.pool.length - 1) = preIdx ++ idx :: postIdx →
      (∀ x ∈ preIdx, ¬ freeDev (s.pool.getD x default)) →
      freeDev (s.pool.getD idx default) →
      ∃ t, connectSweep oracle prop [1, 2, 3, 4, 5, 6, 7] s ev =
        ({ s with
            pool := modifyPool s.pool idx (bragi_claim_fields s oracle i idx)
            children := s.children.set (i - 1) (some idx)
            cmutexHeld := false },
         ev ++ t ++ [.trylockDev idx true, .unlockChildren,
           .usbTransaction idx BRAGI_VID, .usbTransaction idx BRAGI_PID,
           .setupDev idx], true) ∧
        (∀ e ∈ t, isSkipEv e = true) ∧
        (idx < s.pool.length →
          ((connectSweep oracle prop [1, 2, 3, 4, 5, 6, 7] s ev).1.pool.getD idx
              default).status = DEV_STATUS_CONNECTING ∧
          ((connectSweep oracle prop [1, 2, 3, 4, 5, 6, 7] s ev).1.pool.getD idx
              default).parent = some () ∧
          ((connectSweep oracle prop [1, 2, 3, 4, 5, 6, 7] s ev).1.pool.getD idx
              default).out_ep_packet_size = s.out_ep_packet_size ∧
          ((connectSweep oracle prop [1, 2, 3, 4, 5, 6, 7] s ev).1.pool.getD idx
              default).bragi_child_id = i ∧
          ((connectSweep oracle prop [1, 2, 3, 4, 5, 6, 7] s ev).1.pool.getD idx
              default).dmutexHeld = true) ∧
        (∀ x, x ≠ idx →
          (connectSweep oracle prop [1, 2, 3, 4, 5, 6, 7] s ev).1.pool.getD x default =
            s.pool.getD x default)) ∧
  ((∀ x ∈ List.range' 1 (s.pool.length - 1), ¬ freeDev (s.pool.getD x default)) →
    ∃ t, connectSweep oracle prop [1, 2, 3, 4, 5, 6, 7] s ev = (s, ev ++ t, false) ∧
      (∀ e ∈ t, isSkipEv e = true) ∧
      ((∃ i ∈ [1, 2, 3, 4, 5, 6, 7], needsSlot prop s i) →
        DiscEvent.reportNoFree ∈ t))

/-- Statement of claim C8: for each child slot `i` in 1..7 whose presence
bit is clear and whose slot is occupied by pool index `ci`, the disconnect
sweep closes that device (the lock/close/unlock event block appears in the
trace), empties `children[i-1]`, and leaves `ci`'s lifecycle lock unheld;
slots whose bit is set, or which are already empty, keep their `children`
entry and their pool device unchanged. -/
def BragiDisconnectSweepOk (prop : ℕ) (s : DongleState) (ev : List DiscEvent) : Prop :=
  ∀ i, i ∈ [1, 2, 3, 4, 5, 6, 7] →
    (∀ ci, ¬ (prop >>> i) % 2 = 1 → s.children.getD (i - 1) none = some ci →
      (disconnectSweep prop [1, 2, 3, 4, 5, 6, 7] s ev).1.children.getD (i - 1) none =
        none ∧
      ((disconnectSweep prop [1, 2, 3, 4, 5, 6, 7] s ev).1.pool.getD ci
        default).dmutexHeld = false ∧
      [DiscEvent.lockDev ci, DiscEvent.closeDev ci, DiscEvent.unlockDev ci] <:+:
        (disconnectSweep prop [1, 2, 3, 4, 5, 6, 7] s ev).2) ∧
    (((prop >>> i) % 2 = 1 ∨ s.children.getD (i - 1) none = none) →
      (disconnectSweep prop [1, 2, 3, 4, 5, 6, 7] s ev).1.children.getD (i - 1) none =
        s.children.getD (i - 1) none ∧
      ∀ ci, s.children.getD (i - 1) none = some ci →
        (disconnectSweep prop [1, 2, 3, 4, 5, 6, 7] s ev).1.pool.getD ci default =
          s.pool.getD ci default)

/-- Statement of claim C9: re-running the discovery protocol with an
unchanged presence bitmask over an already fully-populated children array is
a no-op on all shared state, and the only lock activity is one acquisition
and one release of the children-set lock. -/
def BragiDiscoveryIdempotentOk (oracle : ℕ → ℕ → ℤ) (s₀ : DongleState) (prop : ℕ) :
    Prop :=
  bragi_update_dongle_subdevs oracle s₀ prop =
    (s₀, [DiscEvent.lockChildren, DiscEvent.unlockChildren])

/-- Statement of claim C7: in every invocation of the discovery protocol the
children-set lock is acquired once at entry (the trace starts with it) and
released exactly once, before any USB transaction; the final state does not
hold it; every pool entry that was not claimed has its lifecycle-lock state
restored; and the claimed entry's lifecycle lock is still held at return,
with the `setupusb` hand-off as the very last event. -/
def BragiDiscoveryLockOk (oracle : ℕ → ℕ → ℤ) (s₀ : DongleState) (prop : ℕ) : Prop :=
  (bragi_update_dongle_subdevs oracle s₀ prop).2.count DiscEvent.lockChildren = 1 ∧
  (bragi_update_dongle_subdevs oracle s₀ prop).2.count DiscEvent.unlockChildren = 1 ∧
  (bragi_update_dongle_subdevs oracle s₀ prop).2.head? = some DiscEvent.lockChildren ∧
  (bragi_update_dongle_subdevs oracle s₀ prop).1.cmutexHeld = false ∧
  (∃ a b, (bragi_update_dongle_subdevs oracle s₀ prop).2 =
      a ++ DiscEvent.unlockChildren :: b ∧ ∀ e ∈ a, isUsbEv e = false) ∧
  (∀ x,
    (DiscEvent.setupDev x ∈ (bragi_update_dongle_subdevs oracle s₀ prop).2 →
      ((bragi_update_dongle_subdevs oracle s₀ prop).1.pool.getD x default).dmutexHeld =
        true ∧
      (bragi_update_dongle_subdevs oracle s₀ prop).2.getLast? =
        some (DiscEvent.setupDev x)) ∧
    (DiscEvent.setupDev x ∉ (bragi_update_dongle_subdevs oracle s₀ prop).2 →
      ((bragi_update_dongle_subdevs oracle s₀ prop).1.pool.getD x default).dmutexHeld =
        (s₀.pool.getD x default).dmutexHeld))

/-! ## Properties and proofs -/

/-- Bitwise helper: appending a low byte-block by `|||` is plain addition
when the low part is small enough. -/
lemma shiftLeft_lor_eq_add (b a n : ℕ) (h : a < 2 ^ n) :
    (b <<< n) ||| a = 2 ^ n * b + a := by
  apply Nat.eq_of_testBit_eq
  intro j
  rw [Nat.testBit_lor, Nat.shiftLeft_eq, Nat.mul_comm b (2 ^ n),
    Nat.testBit_mul_pow_two_add _ h j, Nat.testBit_mul_pow_two]
  by_cases hj : j < n
  · simp [hj, Nat.not_le_of_lt hj]
  · have hf : a.testBit j = false := by
      apply Nat.testBit_lt_two_pow
      calc a < 2 ^ n := h
        _ ≤ 2 ^ j := Nat.pow_le_pow_right (by norm_num) (Nat.le_of_not_lt hj)
    simp [hj, Nat.le_of_not_lt hj, hf]

/-- C5: the property codec behaves as specified (see `BragiPropertyCodecOk`). -/
theorem bragi_property_codec_spec (c : BragiConsts) (transact : List ℕ → Option (List ℕ))
    (prop val : ℕ) (hj : 6 ≤ c.jumbo) : BragiPropertyCodecOk c transact prop val := by
  obtain ⟨k, hk⟩ : ∃ k, c.jumbo - 4 = k + 2 := ⟨c.jumbo - 6, by omega⟩
  have hk6 : c.jumbo - 6 = k := by omega
  have hreq : bragi_get_request c prop =
      [c.magic, c.getOp, prop, 0, 0, 0] ++ List.replicate (c.jumbo - 6) 0 := by
    simp [bragi_get_request, hk, hk6, List.replicate_succ]
  unfold BragiPropertyCodecOk
  refine ⟨⟨?_, ?_⟩, ⟨?_, ?_⟩, ?_, ?_, ?_, ?_, by norm_num⟩
  · rw [← hreq]
    simp only [bragi_get_property]
    rcases transact (bragi_get_request c prop) with _ | r <;> simp [hreq] <;> split <;>
      simp [hreq]
  · simp [bragi_get_request]; omega
  · simp only [bragi_set_property, bragi_set_request]
    rcases transact ([c.magic, c.setOp, prop, 0, val % 256, val >>> 8] ++
      List.replicate (c.jumbo - 6) 0) with _ | r <;> simp <;> split <;> simp
  · simp [bragi_set_request]; omega
  · intro h; simp [bragi_get_property, h]
  · intro h; simp [bragi_set_property, h]
  · intro r h
    have hget : bragi_get_property c transact prop =
        if r.getD 2 0 ≠ 0 then (-2, [bragi_get_request c prop])
        else ((((r.getD 4 0) <<< 8) ||| r.getD 3 0 : ℕ), [bragi_get_request c prop]) := by
      simp only [bragi_get_property, h]
    refine ⟨fun hst => ?_, fun hst => ⟨?_, ?_⟩⟩
    · rw [hget, if_pos hst]
    · rw [hget, if_neg (not_not_intro hst)]
    · intro hlt
      have hor : (r.getD 4 0 <<< 8) ||| r.getD 3 0 = 2 ^ 8 * r.getD 4 0 + r.getD 3 0 :=
        shiftLeft_lor_eq_add _ _ _ (by simpa using hlt)
      rw [hget, if_neg (not_not_intro hst)]
      simp only [hor]
      push_cast
      ring
  · intro r h
    have hset : bragi_set_property c transact prop val =
        if r.getD 2 0 ≠ 0 then (-2, [bragi_set_request c prop val])
        else (0, [bragi_set_request c prop val]) := by
      simp only [bragi_set_property, h]
    exact ⟨fun hst => by rw [hset, if_pos hst],
      fun hst => by rw [hset, if_neg (not_not_intro hst)]⟩

/-- Witness for C5 at concrete inputs: 64-byte jumbo packets, property
`0x05`, value `0x1234`, and a transport answering with the crafted response
`[0, 0, 0, 0x34, 0x12]`; that response indeed decodes to `0x1234`. -/
theorem bragi_property_codec_spec_witness :
    6 ≤ (64 : ℕ) ∧
    BragiPropertyCodecOk ⟨8, 2, 3, 6, 7, 1, 64⟩
      (fun _ => some [0, 0, 0, 0x34, 0x12]) 0x05 0x1234 ∧
    (bragi_get_property ⟨8, 2, 3, 6, 7, 1, 64⟩
      (fun _ => some [0, 0, 0, 0x34, 0x12]) 0x05).1 = 0x1234 :=
  ⟨by norm_num,
   bragi_property_codec_spec ⟨8, 2, 3, 6, 7, 1, 64⟩
     (fun _ => some [0, 0, 0, 0x34, 0x12]) 0x05 0x1234 (by norm_num),
   by decide⟩

/-- Ceiling division expressed through floor division. -/
lemma nat_ceil_div_eq (d s : ℕ) (hd : 0 < d) :
    (s + d - 1) / d = s / d + (if s % d = 0 then 0 else 1) := by
  have hqr : d * (s / d) + s % d = s := Nat.div_add_mod s d
  set q := s / d with hq
  set r := s % d with hr
  by_cases h0 : r = 0
  · have hs : s = d * q := by omega
    have h1 : s + d - 1 = d * q + (d - 1) := by omega
    rw [h1, Nat.mul_add_div hd, Nat.div_eq_of_lt (by omega)]
    simp [h0]
  · have h1 : s + d - 1 = d * (q + 1) + (r - 1) := by
      have := Nat.mod_lt s hd
      rw [Nat.mul_add, Nat.mul_one]
      omega
    have hrd : r < d := Nat.mod_lt s hd
    rw [h1, Nat.mul_add_div hd, Nat.div_eq_of_lt (by omega)]
    simp [h0]

/-- Closed form of the buffer size: for any real packet size the result is
`((L + 3) / (P - 3) + 1) * P`. -/
lemma bragi_calculate_buffer_size_eq (P L : ℕ) (hP : 8 ≤ P) :
    bragi_calculate_buffer_size P L = ((L + 3) / (P - 3) + 1) * P := by
  unfold bragi_calculate_buffer_size bragi_calculate_buffer_size_common
  simp only [Nat.cast_ofNat]
  by_cases hpos : (0 : ℤ) ≤ (L : ℤ) - (P : ℤ) + 7
  · rw [if_pos hpos]
    have hLP : P ≤ L + 7 := by omega
    have hs : (L : ℤ) - (P : ℤ) + 7 = ((L + 7 - P : ℕ) : ℤ) := by push_cast; omega
    have hd : (P : ℤ) - 3 = ((P - 3 : ℕ) : ℤ) := by push_cast; omega
    set sn := L + 7 - P with hsn
    set d := P - 3 with hdn
    have htdiv : ((sn : ℕ) : ℤ).tdiv ((d : ℕ) : ℤ) = ((sn / d : ℕ) : ℤ) := rfl
    have htmod : ((sn : ℕ) : ℤ).tmod ((d : ℕ) : ℤ) = ((sn % d : ℕ) : ℤ) := rfl
    simp only [hs, hd, htdiv, htmod]
    have hif : (if ((sn % d : ℕ) : ℤ) ≠ 0 then (1 : ℤ) else 0) =
        ((if sn % d = 0 then 0 else 1 : ℕ) : ℤ) := by
      by_cases hz : sn % d = 0
      · simp [hz]
      · have hz' : ((sn % d : ℕ) : ℤ) ≠ 0 := by exact_mod_cast hz
        rw [if_pos hz', if_neg hz]
        norm_num
    rw [hif]
    have hprod : ((1 : ℤ) + ((sn / d : ℕ) : ℤ) + ((if sn % d = 0 then 0 else 1 : ℕ) : ℤ)) *
        ((P : ℕ) : ℤ) = (((1 + sn / d + (if sn % d = 0 then 0 else 1)) * P : ℕ) : ℤ) := by
      push_cast; ring
    rw [hprod, Int.toNat_natCast]
    have hnum : L + 3 = sn + d - 1 := by omega
    have hd0 : 0 < d := by omega
    rw [hnum, nat_ceil_div_eq d sn hd0]
    ring
  · rw [if_neg hpos]
    have hlt : L + 3 < P - 3 := by omega
    rw [Nat.div_eq_of_lt hlt]
    ring

/-- C1: the buffer-size formula is exactly the source's, is a multiple of the
packet size, and is minimal among covering packet counts. -/
theorem bragi_buffer_size_spec (P L : ℕ) (hP : 8 ≤ P) : BragiBufferSizeOk P L := by
  have hP0 : 0 < P := by omega
  have hd0 : 0 < P - 3 := by omega
  have heq := bragi_calculate_buffer_size_eq P L hP
  set N := (L + 3) / (P - 3) with hN
  clear_value N
  have hdivP : bragi_calculate_buffer_size P L / P = N + 1 := by
    rw [heq, Nat.mul_div_cancel _ hP0]
  refine ⟨?_, ?_, ?_, ?_, ?_⟩
  · intro hneg
    have hzero : N = 0 := by
      rw [hN]; exact Nat.div_eq_of_lt (by omega)
    rw [heq, hzero]; ring
  · intro hpos
    have hnum : L - (P - 7) + (P - 3) - 1 = L + 3 := by omega
    rw [heq, hnum, ← hN]; ring
  · exact ⟨N + 1, by rw [heq]; ring⟩
  · rw [hdivP]
    refine ⟨by omega, ?_⟩
    have hlt : L + 3 < (N + 1) * (P - 3) := by
      rw [hN]
      exact (Nat.div_lt_iff_lt_mul hd0).mp (by omega)
    have hmul : (N + 1) * (P - 3) = N * (P - 3) + (P - 3) := by ring
    rw [hmul] at hlt
    simp only [Nat.add_sub_cancel]
    omega
  · intro k hk
    obtain ⟨hk1, hkcov⟩ := hk
    rw [hdivP]
    obtain ⟨k', rfl⟩ : ∃ k', k = k' + 1 := ⟨k - 1, by omega⟩
    simp only [Nat.add_sub_cancel] at hkcov
    have hsucc : (k' + 1) * (P - 3) = k' * (P - 3) + (P - 3) := by ring
    have hlt : L + 3 < (k' + 1) * (P - 3) := by
      rw [hsucc]
      omega
    have : N < k' + 1 := by
      rw [hN]
      exact (Nat.div_lt_iff_lt_mul hd0).mpr hlt
    omega

/-- Witness for C1 at the claim's example: `P = 64`, `L = 400` yields
`7 * 64 = 448` bytes. -/
theorem bragi_buffer_size_spec_witness :
    8 ≤ (64 : ℕ) ∧ bragi_calculate_buffer_size 64 400 = 448 ∧ BragiBufferSizeOk 64 400 :=
  ⟨by norm_num, by decide, bragi_buffer_size_spec 64 400 (by norm_num)⟩

/-- C3 (amended): behaviour of `bragi_write_to_handle` on an undersized
buffer, per build flavour. -/
theorem bragi_undersized_buffer_spec (c : BragiConsts) (P : ℕ)
    (oracle : ℕ → Option (List ℕ)) (pkt : List ℕ) (handle buf_len data_len : ℕ)
    (h : buf_len < bragi_calculate_buffer_size P data_len) :
    BragiUndersizedBufferOk c P oracle pkt handle buf_len data_len := by
  have h' : buf_len < bragi_calculate_buffer_size_common P data_len 7 := h
  constructor
  · simp [bragi_write_to_handle, bragi_write_to_handle_common, h']
  · intro buf_len'
    simp [bragi_write_to_handle, bragi_write_to_handle_common]

/-- Witness for the amended C3 at a concrete input (`P = 8`, payload 10,
buffer capacity 8 while 24 bytes are required). -/
theorem bragi_undersized_buffer_spec_witness :
    8 < bragi_calculate_buffer_size 8 10 ∧
    BragiUndersizedBufferOk ⟨8, 2, 3, 6, 7, 1, 64⟩ 8 (fun _ => some [0, 0, 0])
      (List.replicate 8 0) 5 8 10 :=
  ⟨by decide,
   bragi_undersized_buffer_spec ⟨8, 2, 3, 6, 7, 1, 64⟩ 8 (fun _ => some [0, 0, 0])
     (List.replicate 8 0) 5 8 10 (by decide)⟩

/-- C3 counterexample: the claim "an undersized buffer fails fast without
transmitting any packet, in every build, distinguishably from success" is
false on the source.  At `P = 8`, payload length 10, buffer capacity 8
(24 bytes required): in a release build (`NDEBUG` defined, first conjunct)
packets are transmitted anyway, and in a debug build (second conjunct) the
call returns `0`, the same value as a successful call, transmitting
nothing. -/
theorem bragi_undersized_buffer_counterexample :
    8 < bragi_calculate_buffer_size 8 10 ∧
    (bragi_write_to_handle ⟨8, 2, 3, 6, 7, 1, 64⟩ true 8 (fun _ => some [0, 0, 0])
      (List.replicate 8 0) 5 8 10).sent ≠ [] ∧
    (bragi_write_to_handle ⟨8, 2, 3, 6, 7, 1, 64⟩ false 8 (fun _ => some [0, 0, 0])
      (List.replicate 8 0) 5 8 10).ret = 0 ∧
    (bragi_write_to_handle ⟨8, 2, 3, 6, 7, 1, 64⟩ false 8 (fun _ => some [0, 0, 0])
      (List.replicate 8 0) 5 8 10).sent = [] := by
  refine ⟨by decide, ?_, by decide, by decide⟩
  decide

lemma stampContinueHeader_length (c : BragiConsts) (buf : List ℕ) (off : ℕ) :
    (stampContinueHeader c buf off).length = buf.length := by
  simp [stampContinueHeader]

/-- Explicit decomposition of a stamped buffer when the stamp is in range. -/
lemma stampContinueHeader_eq (c : BragiConsts) (buf : List ℕ) (off : ℕ)
    (h : off + 3 ≤ buf.length) :
    stampContinueHeader c buf off =
      buf.take off ++ [c.magic, c.continue_write, c.lighting_handle] ++ buf.drop (off + 3) := by
  induction off generalizing buf with
  | zero =>
    rcases buf with _ | ⟨b0, _ | ⟨b1, _ | ⟨b2, rest⟩⟩⟩
    · simp at h
    · simp at h
    · simp at h
    · rfl
  | succ o ih =>
    rcases buf with _ | ⟨b, rest⟩
    · simp at h
    · have hlen : o + 3 ≤ rest.length := by simp at h; omega
      have hcons : stampContinueHeader c (b :: rest) (o + 1) =
          b :: stampContinueHeader c rest o := by
        simp [stampContinueHeader, List.set_cons_succ]
      have hidx : o + 1 + 3 = (o + 3) + 1 := by ring
      rw [hcons, ih rest hlen, hidx]
      simp

lemma writeFirstHeader_length (c : BragiConsts) (handle data_len : ℕ) (buf : List ℕ) :
    (writeFirstHeader c handle data_len buf).length = buf.length := by
  simp [writeFirstHeader]

/-- Explicit decomposition of the buffer after the first-packet header has
been written, when the buffer holds at least the 7 header bytes. -/
lemma writeFirstHeader_eq (c : BragiConsts) (handle data_len : ℕ) (buf : List ℕ)
    (h : 7 ≤ buf.length) :
    writeFirstHeader c handle data_len buf =
      [c.magic, c.write_data, handle, data_len % 256, data_len >>> 8 % 256,
        data_len >>> 16 % 256, data_len >>> 24 % 256] ++ buf.drop 7 := by
  rcases buf with _ | ⟨b0, _ | ⟨b1, _ | ⟨b2, _ | ⟨b3, _ | ⟨b4, _ | ⟨b5, _ | ⟨b6, rest⟩⟩⟩⟩⟩⟩⟩
  · simp at h
  · simp at h
  · simp at h
  · simp at h
  · simp at h
  · simp at h
  · simp at h
  · rfl

/-- The continuation loop consumes one oracle entry per transmitted packet;
on a `1` return the failing transaction is the one of the last transmitted
packet and every earlier one succeeded; on a `0` return every consumed
transaction succeeded. -/
lemma bragi_write_loop_result (c : BragiConsts) (P L offset : ℕ)
    (oracle : ℕ → Option (List ℕ)) :
    ∀ fuel pkt_out tidx buf sent statuses,
      ∃ m,
        (bragi_write_loop c P L offset oracle fuel pkt_out tidx buf sent statuses).sent.length
            = sent.length + m ∧
        ((bragi_write_loop c P L offset oracle fuel pkt_out tidx buf sent statuses).ret = 0 ∨
          (bragi_write_loop c P L offset oracle fuel pkt_out tidx buf sent statuses).ret = 1) ∧
        ((bragi_write_loop c P L offset oracle fuel pkt_out tidx buf sent statuses).ret = 1 →
          1 ≤ m ∧ oracle (tidx + m - 1) = none ∧
            ∀ j, j + 1 < m → (oracle (tidx + j)).isSome) ∧
        ((bragi_write_loop c P L offset oracle fuel pkt_out tidx buf sent statuses).ret = 0 →
          ∀ j, j < m → (oracle (tidx + j)).isSome) := by
  intro fuel
  induction fuel with
  | zero =>
    intro pkt_out tidx buf sent statuses
    refine ⟨0, by simp [bragi_write_loop], Or.inl (by simp [bragi_write_loop]), ?_, ?_⟩
    · intro hr; simp [bragi_write_loop] at hr
    · intro _ j hj; omega
  | succ f ih =>
    intro pkt_out tidx buf sent statuses
    by_cases hcond : pkt_out + P < L + offset
    · cases hr : oracle tidx with
      | none =>
        refine ⟨1, ?_, ?_, ?_, ?_⟩
        · simp [bragi_write_loop, hcond, hr]
        · right; simp [bragi_write_loop, hcond, hr]
        · intro _
          refine ⟨Nat.le_refl 1, ?_, ?_⟩
          · simpa using hr
          · intro j hj; omega
        · intro h0
          simp [bragi_write_loop, hcond, hr] at h0
      | some resp =>
        obtain ⟨m, hlen, hret01, hret1, hret0⟩ :=
          ih (pkt_out + P - 3) (tidx + 1)
            (stampContinueHeader c buf (pkt_out + P - 3))
            (sent ++ [((stampContinueHeader c buf (pkt_out + P - 3)).drop
              (pkt_out + P - 3)).take P])
            (statuses ++ [resp.getD 2 0])
        have hunfold :
            bragi_write_loop c P L offset oracle (f + 1) pkt_out tidx buf sent statuses =
              bragi_write_loop c P L offset oracle f (pkt_out + P - 3) (tidx + 1)
                (stampContinueHeader c buf (pkt_out + P - 3))
                (sent ++ [((stampContinueHeader c buf (pkt_out + P - 3)).drop
                  (pkt_out + P - 3)).take P])
                (statuses ++ [resp.getD 2 0]) := by
          simp [bragi_write_loop, hcond, hr]
        rw [hunfold]
        refine ⟨m + 1, ?_, hret01, ?_, ?_⟩
        · rw [hlen]; simp; omega
        · intro h1
          obtain ⟨hm1, hnone, hprev⟩ := hret1 h1
          refine ⟨by omega, ?_, ?_⟩
          · have : tidx + 1 + m - 1 = tidx + (m + 1) - 1 := by omega
            rw [← this]; exact hnone
          · intro j hj
            match j with
            | 0 => simp [hr]
            | j' + 1 =>
              have : tidx + (j' + 1) = tidx + 1 + j' := by omega
              rw [this]; exact hprev j' (by omega)
        · intro h0 j hj
          match j with
          | 0 => simp [hr]
          | j' + 1 =>
            have : tidx + (j' + 1) = tidx + 1 + j' := by omega
            rw [this]; exact hret0 h0 j' (by omega)
    · refine ⟨0, by simp [bragi_write_loop, hcond], Or.inl (by simp [bragi_write_loop, hcond]),
        ?_, ?_⟩
      · intro hr; simp [bragi_write_loop, hcond] at hr
      · intro _ j hj; omega

/-- The loop's return value, transmitted packets and final buffer depend on
the oracle only through its success/failure pattern, never through response
contents. -/
lemma bragi_write_loop_pattern (c : BragiConsts) (P L offset : ℕ)
    (o₁ o₂ : ℕ → Option (List ℕ)) (hpat : ∀ n, (o₁ n).isSome = (o₂ n).isSome) :
    ∀ fuel pkt_out tidx buf sent sts₁ sts₂,
      (bragi_write_loop c P L offset o₁ fuel pkt_out tidx buf sent sts₁).ret =
        (bragi_write_loop c P L offset o₂ fuel pkt_out tidx buf sent sts₂).ret ∧
      (bragi_write_loop c P L offset o₁ fuel pkt_out tidx buf sent sts₁).sent =
        (bragi_write_loop c P L offset o₂ fuel pkt_out tidx buf sent sts₂).sent ∧
      (bragi_write_loop c P L offset o₁ fuel pkt_out tidx buf sent sts₁).buf =
        (bragi_write_loop c P L offset o₂ fuel pkt_out tidx buf sent sts₂).buf := by
  intro fuel
  induction fuel with
  | zero => intro pkt_out tidx buf sent sts₁ sts₂; simp [bragi_write_loop]
  | succ f ih =>
    intro pkt_out tidx buf sent sts₁ sts₂
    by_cases hcond : pkt_out + P < L + offset
    · cases hr1 : o₁ tidx with
      | none =>
        have hr2 : o₂ tidx = none := by
          have := hpat tidx
          rw [hr1] at this
          simpa using this.symm
        simp [bragi_write_loop, hcond, hr1, hr2]
      | some resp1 =>
        have := hpat tidx
        rw [hr1] at this
        obtain ⟨resp2, hr2⟩ : ∃ r, o₂ tidx = some r := by
          rcases h2 : o₂ tidx with _ | r
          · rw [h2] at this; simp at this
          · exact ⟨r, rfl⟩
        have h1 : bragi_write_loop c P L offset o₁ (f + 1) pkt_out tidx buf sent sts₁ =
            bragi_write_loop c P L offset o₁ f (pkt_out + P - 3) (tidx + 1)
              (stampContinueHeader c buf (pkt_out + P - 3))
              (sent ++ [((stampContinueHeader c buf (pkt_out + P - 3)).drop
                (pkt_out + P - 3)).take P])
              (sts₁ ++ [resp1.getD 2 0]) := by
          simp [bragi_write_loop, hcond, hr1]
        have h2 : bragi_write_loop c P L offset o₂ (f + 1) pkt_out tidx buf sent sts₂ =
            bragi_write_loop c P L offset o₂ f (pkt_out + P - 3) (tidx + 1)
              (stampContinueHeader c buf (pkt_out + P - 3))
              (sent ++ [((stampContinueHeader c buf (pkt_out + P - 3)).drop
                (pkt_out + P - 3)).take P])
              (sts₂ ++ [resp2.getD 2 0]) := by
          simp [bragi_write_loop, hcond, hr2]
        rw [h1, h2]
        exact ih (pkt_out + P - 3) (tidx + 1) _ _ _ _
    · simp [bragi_write_loop, hcond]

/-- The loop only consults the oracle from transaction `tidx` upward. -/
lemma bragi_write_loop_congr (c : BragiConsts) (P L offset : ℕ)
    (o₁ o₂ : ℕ → Option (List ℕ)) :
    ∀ fuel pkt_out tidx buf sent statuses, (∀ n, tidx ≤ n → o₁ n = o₂ n) →
      bragi_write_loop c P L offset o₁ fuel pkt_out tidx buf sent statuses =
        bragi_write_loop c P L offset o₂ fuel pkt_out tidx buf sent statuses := by
  intro fuel
  induction fuel with
  | zero => intro pkt_out tidx buf sent statuses _; simp [bragi_write_loop]
  | succ f ih =>
    intro pkt_out tidx buf sent statuses hagree
    by_cases hcond : pkt_out + P < L + offset
    · have hr : o₁ tidx = o₂ tidx := hagree tidx (Nat.le_refl tidx)
      cases hr2 : o₂ tidx with
      | none =>
        have hr1 : o₁ tidx = none := by rw [hr, hr2]
        simp [bragi_write_loop, hcond, hr1, hr2]
      | some resp =>
        have hr1 : o₁ tidx = some resp := by rw [hr, hr2]
        have h1 : bragi_write_loop c P L offset o₁ (f + 1) pkt_out tidx buf sent statuses =
            bragi_write_loop c P L offset o₁ f (pkt_out + P - 3) (tidx + 1)
              (stampContinueHeader c buf (pkt_out + P - 3))
              (sent ++ [((stampContinueHeader c buf (pkt_out + P - 3)).drop
                (pkt_out + P - 3)).take P])
              (statuses ++ [resp.getD 2 0]) := by
          simp [bragi_write_loop, hcond, hr1]
        have h2 : bragi_write_loop c P L offset o₂ (f + 1) pkt_out tidx buf sent statuses =
            bragi_write_loop c P L offset o₂ f (pkt_out + P - 3) (tidx + 1)
              (stampContinueHeader c buf (pkt_out + P - 3))
              (sent ++ [((stampContinueHeader c buf (pkt_out + P - 3)).drop
                (pkt_out + P - 3)).take P])
              (statuses ++ [resp.getD 2 0]) := by
          simp [bragi_write_loop, hcond, hr2]
        rw [h1, h2]
        exact ih _ _ _ _ _ (fun n hn => hagree n (by omega))
    · simp [bragi_write_loop, hcond]

/-- With an all-success oracle and a real packet size, the loop from window
counter `k` transmits exactly the continuation packets `k+1 .. N` where
`N = (L + 3) / (P - 3)`: packet `j` is the 3 continuation-header bytes
followed by the `P - 3` buffer bytes starting at `j * (P - 3) + 3`. -/
lemma bragi_write_loop_all_some (c : BragiConsts) (P L : ℕ)
    (oracle : ℕ → Option (List ℕ)) (hP : 8 ≤ P) (hsome : ∀ n, (oracle n).isSome) :
    ∀ fuel k tidx buf sent statuses,
      (L + 3) / (P - 3) ≤ k + fuel →
      (L + 3) / (P - 3) * (P - 3) + P ≤ buf.length →
      (bragi_write_loop c P L 7 oracle fuel (k * (P - 3)) tidx buf sent statuses).ret = 0 ∧
      (bragi_write_loop c P L 7 oracle fuel (k * (P - 3)) tidx buf sent statuses).sent =
        sent ++ (List.range' (k + 1) ((L + 3) / (P - 3) - k)).map
          (fun j => [c.magic, c.continue_write, c.lighting_handle] ++
            ((buf.drop (j * (P - 3) + 3)).take (P - 3))) := by
  have hd0 : 0 < P - 3 := by omega
  intro fuel
  induction fuel with
  | zero =>
    intro k tidx buf sent statuses hfuel hbuf
    have hNk : (L + 3) / (P - 3) - k = 0 := by omega
    simp [bragi_write_loop, hNk]
  | succ f ih =>
    intro k tidx buf sent statuses hfuel hbuf
    have hmulsucc : (k + 1) * (P - 3) = k * (P - 3) + (P - 3) := by ring
    have hcond_iff : (k * (P - 3) + P < L + 7) ↔ (k + 1 ≤ (L + 3) / (P - 3)) := by
      rw [Nat.le_div_iff_mul_le hd0, hmulsucc]
      omega
    by_cases hcase : k + 1 ≤ (L + 3) / (P - 3)
    · have hcond : k * (P - 3) + P < L + 7 := hcond_iff.mpr hcase
      obtain ⟨r, hr⟩ : ∃ r, oracle tidx = some r := Option.isSome_iff_exists.mp (hsome tidx)
      have hoff : k * (P - 3) + P - 3 = (k + 1) * (P - 3) := by
        rw [hmulsucc]; omega
      have hofflen : (k + 1) * (P - 3) + 3 ≤ buf.length := by
        have hmono : (k + 1) * (P - 3) ≤ (L + 3) / (P - 3) * (P - 3) :=
          Nat.mul_le_mul_right _ hcase
        omega
      have hunfold :
          bragi_write_loop c P L 7 oracle (f + 1) (k * (P - 3)) tidx buf sent statuses =
            bragi_write_loop c P L 7 oracle f ((k + 1) * (P - 3)) (tidx + 1)
              (stampContinueHeader c buf ((k + 1) * (P - 3)))
              (sent ++ [((stampContinueHeader c buf ((k + 1) * (P - 3))).drop
                ((k + 1) * (P - 3))).take P])
              (statuses ++ [r.getD 2 0]) := by
        simp [bragi_write_loop, hcond, hr, hoff]
      have htake : (buf.take ((k + 1) * (P - 3))).length = (k + 1) * (P - 3) :=
        List.length_take_of_le (by omega)
      have hdropstamp : (stampContinueHeader c buf ((k + 1) * (P - 3))).drop
          ((k + 1) * (P - 3)) =
          [c.magic, c.continue_write, c.lighting_handle] ++
            buf.drop ((k + 1) * (P - 3) + 3) := by
        rw [stampContinueHeader_eq c buf ((k + 1) * (P - 3)) hofflen, List.append_assoc]
        exact List.drop_left' htake
      have hpacket : ((stampContinueHeader c buf ((k + 1) * (P - 3))).drop
          ((k + 1) * (P - 3))).take P =
          [c.magic, c.continue_write, c.lighting_handle] ++
            ((buf.drop ((k + 1) * (P - 3) + 3)).take (P - 3)) := by
        rw [hdropstamp, List.take_append_eq_append_take]
        congr 1
        exact List.take_of_length_le (by simp; omega)
      obtain ⟨ihret, ihsent⟩ := ih (k + 1) (tidx + 1)
        (stampContinueHeader c buf ((k + 1) * (P - 3)))
        (sent ++ [((stampContinueHeader c buf ((k + 1) * (P - 3))).drop
          ((k + 1) * (P - 3))).take P])
        (statuses ++ [r.getD 2 0]) (by omega)
        (by rw [stampContinueHeader_length]; exact hbuf)
      constructor
      · rw [hunfold]; exact ihret
      · rw [hunfold, ihsent, hpacket]
        have hmap : (List.range' (k + 1 + 1) ((L + 3) / (P - 3) - (k + 1))).map
            (fun j => [c.magic, c.continue_write, c.lighting_handle] ++
              (((stampContinueHeader c buf ((k + 1) * (P - 3))).drop
                (j * (P - 3) + 3)).take (P - 3))) =
            (List.range' (k + 1 + 1) ((L + 3) / (P - 3) - (k + 1))).map
            (fun j => [c.magic, c.continue_write, c.lighting_handle] ++
              ((buf.drop (j * (P - 3) + 3)).take (P - 3))) := by
          apply List.map_congr_left
          intro j hj
          have hj' : k + 1 + 1 ≤ j := (List.mem_range'_1.mp hj).1
          have hgt : (k + 1) * (P - 3) + 2 < j * (P - 3) + 3 := by
            have hm : (k + 2) * (P - 3) ≤ j * (P - 3) :=
              Nat.mul_le_mul_right _ (by omega)
            have h2 : (k + 2) * (P - 3) = (k + 1) * (P - 3) + (P - 3) := by ring
            omega
          have hdropeq : (stampContinueHeader c buf ((k + 1) * (P - 3))).drop
              (j * (P - 3) + 3) = buf.drop (j * (P - 3) + 3) := by
            unfold stampContinueHeader
            rw [List.drop_set_of_lt _ _ (by omega), List.drop_set_of_lt _ _ (by omega),
              List.drop_set_of_lt _ _ (by omega)]
          rw [hdropeq]
        rw [hmap]
        have hNk : (L + 3) / (P - 3) - k = ((L + 3) / (P - 3) - (k + 1)) + 1 := by omega
        rw [hNk, List.range'_succ]
        simp [List.append_assoc]
    · have hcond : ¬(k * (P - 3) + P < L + 7) := fun hc => hcase (hcond_iff.mp hc)
      have hNk : (L + 3) / (P - 3) - k = 0 := by omega
      simp [bragi_write_loop, hcond, hNk]

/-- Indexing helper: element `k ≥ 1` of a cons followed by a map over
`List.range' 1 N`. -/
lemma getD_cons_map_range' (x : List ℕ) (f : ℕ → List ℕ) (N k : ℕ)
    (hk1 : 1 ≤ k) (hk : k < N + 1) :
    (x :: (List.range' 1 N).map f).getD k [] = f k := by
  match k, hk1 with
  | k' + 1, _ =>
    rw [List.getD_cons_succ, List.getD_eq_getElem?_getD, List.getElem?_map]
    have hget : (List.range' 1 N)[k']? = some (1 + k') := by
      rw [List.getElem?_eq_getElem (by simp; omega)]
      simp [List.getElem_range']
    rw [hget]
    have h1k : 1 + k' = k' + 1 := Nat.add_comm 1 k'
    simp [h1k]

/-- C2: packet layout and count of a fully successful chunked write. -/
theorem bragi_write_packets_spec (c : BragiConsts) (ndebug : Bool) (P : ℕ)
    (oracle : ℕ → Option (List ℕ)) (pkt : List ℕ) (handle data_len : ℕ)
    (hP : 8 ≤ P) (hsome : ∀ n, (oracle n).isSome)
    (hlen : bragi_calculate_buffer_size P data_len ≤ pkt.length) :
    BragiWritePacketsOk c ndebug P oracle pkt handle data_len := by
  have hd0 : 0 < P - 3 := by omega
  have hP0 : 0 < P := by omega
  have heq := bragi_calculate_buffer_size_eq P data_len hP
  have hmul : ((data_len + 3) / (P - 3) + 1) * P = (data_len + 3) / (P - 3) * P + P := by
    ring
  have hmono : (data_len + 3) / (P - 3) * (P - 3) ≤ (data_len + 3) / (P - 3) * P :=
    Nat.mul_le_mul_left _ (by omega)
  have hNlen : (data_len + 3) / (P - 3) * (P - 3) + P ≤ pkt.length := by omega
  have h7 : 7 ≤ pkt.length := by omega
  have hPlen : P ≤ pkt.length := by omega
  have hcheck : ¬(¬ndebug ∧ pkt.length <
      bragi_calculate_buffer_size_common P data_len 7) := by
    rintro ⟨-, hlt⟩
    have hcc : bragi_calculate_buffer_size P data_len =
        bragi_calculate_buffer_size_common P data_len 7 := rfl
    omega
  obtain ⟨r0, hr0⟩ : ∃ r, oracle 0 = some r := Option.isSome_iff_exists.mp (hsome 0)
  have hwunfold : bragi_write_to_handle c ndebug P oracle pkt handle pkt.length data_len =
      bragi_write_loop c P data_len 7 oracle (data_len + 7) 0 1
        (writeFirstHeader c handle data_len pkt)
        [(writeFirstHeader c handle data_len pkt).take P] [] := by
    rw [bragi_write_to_handle, bragi_write_to_handle_common, if_neg hcheck]
    simp only [hr0]
  have hloop := bragi_write_loop_all_some c P data_len oracle hP hsome (data_len + 7) 0 1
    (writeFirstHeader c handle data_len pkt)
    [(writeFirstHeader c handle data_len pkt).take P] []
    (by have := Nat.div_le_self (data_len + 3) (P - 3); omega)
    (by rw [writeFirstHeader_length]; exact hNlen)
  rw [Nat.zero_mul] at hloop
  obtain ⟨hret, hsent⟩ := hloop
  have hsent' : (bragi_write_to_handle c ndebug P oracle pkt handle
      pkt.length data_len).sent =
      (writeFirstHeader c handle data_len pkt).take P ::
        (List.range' 1 ((data_len + 3) / (P - 3))).map
          (fun j => [c.magic, c.continue_write, c.lighting_handle] ++
            (((writeFirstHeader c handle data_len pkt).drop (j * (P - 3) + 3)).take
              (P - 3))) := by
    rw [hwunfold, hsent]
    simp
  have hdivP : bragi_calculate_buffer_size P data_len / P = (data_len + 3) / (P - 3) + 1 := by
    rw [heq, Nat.mul_div_cancel _ hP0]
  have hlenfinal : (bragi_write_to_handle c ndebug P oracle pkt handle
      pkt.length data_len).sent.length = (data_len + 3) / (P - 3) + 1 := by
    rw [hsent']
    simp
  refine ⟨?_, ?_, ?_, ?_, ?_, ?_⟩
  · rw [hwunfold]; exact hret
  · rw [hlenfinal, hdivP]
  · rw [hsent']; rfl
  · rw [hsent']
    have htt : ((writeFirstHeader c handle data_len pkt).take P).take 7 =
        (writeFirstHeader c handle data_len pkt).take 7 := by
      rw [List.take_take]
      congr 1
      omega
    have hhdr := writeFirstHeader_eq c handle data_len pkt h7
    rw [List.getD_cons_zero, htt, hhdr]
    rfl
  · intro k hk1 hk
    rw [hlenfinal] at hk
    rw [hsent']
    exact getD_cons_map_range' _ _ _ _ hk1 hk
  · intro k hk
    rw [hlenfinal] at hk
    rw [hsent']
    match k with
    | 0 =>
      rw [List.getD_cons_zero]
      exact List.length_take_of_le (by rw [writeFirstHeader_length]; exact hPlen)
    | k' + 1 =>
      rw [getD_cons_map_range' _ _ _ _ (by omega) hk]
      simp only [List.length_append, List.length_take, List.length_drop,
        writeFirstHeader_length]
      have hmono2 : (k' + 1) * (P - 3) ≤ (data_len + 3) / (P - 3) * (P - 3) :=
        Nat.mul_le_mul_right _ (by omega)
      simp
      omega

/-- Witness for C2 at a concrete input: `P = 16`, payload 30 (3 packets of
16 bytes), caller handle distinct from the lighting handle. -/
theorem bragi_write_packets_spec_witness :
    8 ≤ (16 : ℕ) ∧ (∀ n : ℕ, ((fun _ => some [0, 0, 0]) n : Option (List ℕ)).isSome) ∧
    bragi_calculate_buffer_size 16 30 ≤ (List.replicate 48 9).length ∧
    BragiWritePacketsOk ⟨8, 2, 3, 6, 7, 1, 64⟩ false 16 (fun _ => some [0, 0, 0])
      (List.replicate 48 9) 5 30 :=
  ⟨by norm_num, fun n => by simp, by decide,
   bragi_write_packets_spec ⟨8, 2, 3, 6, 7, 1, 64⟩ false 16 (fun _ => some [0, 0, 0])
     (List.replicate 48 9) 5 30 (by norm_num) (fun n => by simp) (by decide)⟩

/-- C4: error result exactly on transport failure, immediate abort, and
insensitivity to response contents. -/
theorem bragi_write_error_spec (c : BragiConsts) (ndebug : Bool) (P : ℕ)
    (oracle : ℕ → Option (List ℕ)) (pkt : List ℕ) (handle buf_len data_len : ℕ) :
    BragiWriteErrorOk c ndebug P oracle pkt handle buf_len data_len := by
  by_cases hchk : ¬ndebug ∧ buf_len < bragi_calculate_buffer_size_common P data_len 7
  · have hr : bragi_write_to_handle c ndebug P oracle pkt handle buf_len data_len =
        ⟨0, [], [], pkt⟩ := by
      rw [bragi_write_to_handle, bragi_write_to_handle_common, if_pos hchk]
    refine ⟨Or.inl (by rw [hr]), ?_, ?_, ?_⟩
    · intro h1; rw [hr] at h1; simp at h1
    · intro _ j hj; rw [hr] at hj; simp at hj
    · intro o₂ hpat
      have hr2 : bragi_write_to_handle c ndebug P o₂ pkt handle buf_len data_len =
          ⟨0, [], [], pkt⟩ := by
        rw [bragi_write_to_handle, bragi_write_to_handle_common, if_pos hchk]
      rw [hr, hr2]
      exact ⟨rfl, rfl⟩
  · cases hr0 : oracle 0 with
    | none =>
      have hr : bragi_write_to_handle c ndebug P oracle pkt handle buf_len data_len =
          ⟨1, [(writeFirstHeader c handle data_len pkt).take P], [],
            writeFirstHeader c handle data_len pkt⟩ := by
        rw [bragi_write_to_handle, bragi_write_to_handle_common, if_neg hchk]
        simp only [hr0]
      refine ⟨Or.inr (by rw [hr]), ?_, ?_, ?_⟩
      · intro _
        rw [hr]
        refine ⟨by simp, by simpa using hr0, ?_⟩
        intro j hj; simp at hj
      · intro h0; rw [hr] at h0; simp at h0
      · intro o₂ hpat
        have h2 : o₂ 0 = none := by
          have := hpat 0
          rw [hr0] at this
          simpa using this.symm
        have hr2 : bragi_write_to_handle c ndebug P o₂ pkt handle buf_len data_len =
            ⟨1, [(writeFirstHeader c handle data_len pkt).take P], [],
              writeFirstHeader c handle data_len pkt⟩ := by
          rw [bragi_write_to_handle, bragi_write_to_handle_common, if_neg hchk]
          simp only [h2]
        rw [hr, hr2]
        exact ⟨rfl, rfl⟩
    | some r0 =>
      have hwunfold : bragi_write_to_handle c ndebug P oracle pkt handle buf_len data_len =
          bragi_write_loop c P data_len 7 oracle (data_len + 7) 0 1
            (writeFirstHeader c handle data_len pkt)
            [(writeFirstHeader c handle data_len pkt).take P] [] := by
        rw [bragi_write_to_handle, bragi_write_to_handle_common, if_neg hchk]
        simp only [hr0]
      obtain ⟨m, hlen, hret01, hret1, hret0⟩ :=
        bragi_write_loop_result c P data_len 7 oracle (data_len + 7) 0 1
          (writeFirstHeader c handle data_len pkt)
          [(writeFirstHeader c handle data_len pkt).take P] []
      simp only [List.length_cons, List.length_nil] at hlen
      refine ⟨by rw [hwunfold]; exact hret01, ?_, ?_, ?_⟩
      · intro h1
        rw [hwunfold] at h1
        obtain ⟨hm1, hnone, hprev⟩ := hret1 h1
        rw [hwunfold, hlen]
        refine ⟨by omega, ?_, ?_⟩
        · have hidx : 0 + 1 + m - 1 = 1 + m - 1 := by omega
          rw [hidx] at hnone
          have hidx2 : 0 + 1 + m - 1 = m := by omega
          rw [hidx2] at hnone
          have hidx3 : 0 + 1 + m - 1 = m := by omega
          simpa [hidx3] using hnone
        · intro j hj
          match j with
          | 0 => simp [hr0]
          | j' + 1 =>
            have := hprev j' (by omega)
            have hidx : 1 + j' = j' + 1 := by omega
            rwa [hidx] at this
      · intro h0 j hj
        rw [hwunfold] at h0
        rw [hwunfold, hlen] at hj
        match j with
        | 0 => simp [hr0]
        | j' + 1 =>
          have := hret0 h0 j' (by omega)
          have hidx : 1 + j' = j' + 1 := by omega
          rwa [hidx] at this
      · intro o₂ hpat
        obtain ⟨r2, hr2⟩ : ∃ r, o₂ 0 = some r := by
          have := hpat 0
          rw [hr0] at this
          rcases h2 : o₂ 0 with _ | r
          · rw [h2] at this; simp at this
          · exact ⟨r, rfl⟩
        have hwunfold2 : bragi_write_to_handle c ndebug P o₂ pkt handle buf_len data_len =
            bragi_write_loop c P data_len 7 o₂ (data_len + 7) 0 1
              (writeFirstHeader c handle data_len pkt)
              [(writeFirstHeader c handle data_len pkt).take P] [] := by
          rw [bragi_write_to_handle, bragi_write_to_handle_common, if_neg hchk]
          simp only [hr2]
        obtain ⟨hreq, hseq, -⟩ :=
          bragi_write_loop_pattern c P data_len 7 oracle o₂ hpat (data_len + 7) 0 1
            (writeFirstHeader c handle data_len pkt)
            [(writeFirstHeader c handle data_len pkt).take P] [] []
        rw [hwunfold, hwunfold2]
        exact ⟨hreq, hseq⟩

/-- Witness for C4 at a concrete input (`P = 8`, payload 10, transport
failing on the second transaction). -/
theorem bragi_write_error_spec_witness :
    BragiWriteErrorOk ⟨8, 2, 3, 6, 7, 1, 64⟩ false 8
      (fun n => if n = 1 then none else some [0, 0, 0]) (List.replicate 24 0) 5 24 10 :=
  bragi_write_error_spec ⟨8, 2, 3, 6, 7, 1, 64⟩ false 8
    (fun n => if n = 1 then none else some [0, 0, 0]) (List.replicate 24 0) 5 24 10

/-- C10: the first packet's response content is ignored entirely. -/
theorem bragi_first_response_ignored_spec (c : BragiConsts) (ndebug : Bool) (P : ℕ)
    (pkt : List ℕ) (handle buf_len data_len : ℕ) (o₁ o₂ : ℕ → Option (List ℕ))
    (a b : List ℕ) (h1 : o₁ 0 = some a) (h2 : o₂ 0 = some b)
    (hrest : ∀ n, 1 ≤ n → o₁ n = o₂ n) :
    BragiFirstResponseIgnoredOk c ndebug P pkt handle buf_len data_len o₁ o₂ := by
  unfold BragiFirstResponseIgnoredOk
  rw [bragi_write_to_handle, bragi_write_to_handle, bragi_write_to_handle_common,
    bragi_write_to_handle_common]
  by_cases hchk : ¬ndebug ∧ buf_len < bragi_calculate_buffer_size_common P data_len 7
  · rw [if_pos hchk, if_pos hchk]
  · rw [if_neg hchk, if_neg hchk]
    simp only [h1, h2]
    exact bragi_write_loop_congr c P data_len 7 o₁ o₂ (data_len + 7) 0 1 _ _ []
      (fun n hn => hrest n hn)

/-- Witness for C10 at a concrete input: the two transports differ only in
the first response's bytes (status `0` versus status `0xff`), and the two
calls produce identical results. -/
theorem bragi_first_response_ignored_spec_witness :
    ((fun _ => some [4, 4, 4]) : ℕ → Option (List ℕ)) 0 = some [4, 4, 4] ∧
    ((fun n => if n = 0 then some [9, 9, 0xff] else some [4, 4, 4]) :
      ℕ → Option (List ℕ)) 0 = some [9, 9, 0xff] ∧
    (∀ n : ℕ, 1 ≤ n →
      ((fun _ => some [4, 4, 4]) : ℕ → Option (List ℕ)) n =
        (fun n => if n = 0 then some [9, 9, 0xff] else some [4, 4, 4]) n) ∧
    BragiFirstResponseIgnoredOk ⟨8, 2, 3, 6, 7, 1, 64⟩ false 8 (List.replicate 24 0)
      5 24 10 (fun _ => some [4, 4, 4])
      (fun n => if n = 0 then some [9, 9, 0xff] else some [4, 4, 4]) :=
  ⟨rfl, by simp,
   fun n hn => by simp only; rw [if_neg (by omega)],
   bragi_first_response_ignored_spec ⟨8, 2, 3, 6, 7, 1, 64⟩ false 8 (List.replicate 24 0)
     5 24 10 (fun _ => some [4, 4, 4])
     (fun n => if n = 0 then some [9, 9, 0xff] else some [4, 4, 4])
     [4, 4, 4] [9, 9, 0xff] rfl (by simp) (fun n hn => by simp only; rw [if_neg (by omega)])⟩

lemma modifyPool_length (pool : List SubDev) (i : ℕ) (f : SubDev → SubDev) :
    (modifyPool pool i f).length = pool.length := by
  unfold modifyPool
  cases h : pool[i]? <;> simp

lemma modifyPool_getD_self (pool : List SubDev) (i : ℕ) (f : SubDev → SubDev)
    (h : i < pool.length) :
    (modifyPool pool i f).getD i default = f (pool.getD i default) := by
  unfold modifyPool
  rw [List.getElem?_eq_getElem h]
  rw [List.getD_eq_getElem?_getD, List.getElem?_set_self (by simpa using h)]
  rw [List.getD_eq_getElem?_getD, List.getElem?_eq_getElem h]
  rfl

lemma modifyPool_getD_ne (pool : List SubDev) (i : ℕ) (f : SubDev → SubDev)
    (x : ℕ) (hx : x ≠ i) :
    (modifyPool pool i f).getD x default = pool.getD x default := by
  unfold modifyPool
  cases h : pool[i]? with
  | none => rfl
  | some d =>
    rw [List.getD_eq_getElem?_getD, List.getElem?_set_ne (fun he => hx he.symm),
      ← List.getD_eq_getElem?_getD]

lemma SubDev_eta_unlock (d : SubDev) (h : d.dmutexHeld = false) :
    { d with dmutexHeld := false } = d := by
  cases d
  simp_all

/-- `disconnectStep` never changes the children-set lock, the packet size,
or the lengths of the children array and the pool. -/
lemma disconnectStep_basic (prop i : ℕ) (s : DongleState) (ev : List DiscEvent) :
    (disconnectStep prop i s ev).1.cmutexHeld = s.cmutexHeld ∧
    (disconnectStep prop i s ev).1.out_ep_packet_size = s.out_ep_packet_size ∧
    (disconnectStep prop i s ev).1.pool.length = s.pool.length ∧
    (disconnectStep prop i s ev).1.children.length = s.children.length := by
  unfold disconnectStep
  by_cases hbit : (prop >>> i) % 2 = 1
  · simp [hbit]
  · cases hc : s.children.getD (i - 1) none with
    | none => simp [hbit, hc]
    | some ci => simp [hbit, hc, modifyPool_length]

lemma disconnectSweep_basic (prop : ℕ) : ∀ (is : List ℕ) (s : DongleState)
    (ev : List DiscEvent),
    (disconnectSweep prop is s ev).1.cmutexHeld = s.cmutexHeld ∧
    (disconnectSweep prop is s ev).1.out_ep_packet_size = s.out_ep_packet_size ∧
    (disconnectSweep prop is s ev).1.pool.length = s.pool.length ∧
    (disconnectSweep prop is s ev).1.children.length = s.children.length := by
  intro is
  induction is with
  | nil => intro s ev; exact ⟨rfl, rfl, rfl, rfl⟩
  | cons i rest ih =>
    intro s ev
    obtain ⟨h1, h2, h3, h4⟩ := disconnectStep_basic prop i s ev
    obtain ⟨g1, g2, g3, g4⟩ := ih (disconnectStep prop i s ev).1 (disconnectStep prop i s ev).2
    refine ⟨?_, ?_, ?_, ?_⟩ <;> simp only [disconnectSweep] <;>
      first
      | exact g1.trans h1
      | exact g2.trans h2
      | exact g3.trans h3
      | exact g4.trans h4

lemma disconnectStep_events (prop i : ℕ) (s : DongleState) (ev : List DiscEvent) :
    ∃ t, (disconnectStep prop i s ev).2 = ev ++ t ∧ ∀ e ∈ t, isDcEv e = true := by
  unfold disconnectStep
  by_cases hbit : (prop >>> i) % 2 = 1
  · exact ⟨[], by simp [hbit], by simp⟩
  · cases hc : s.children.getD (i - 1) none with
    | none => exact ⟨[], by simp [hbit, hc], by simp⟩
    | some ci =>
      refine ⟨[.lockDev ci, .closeDev ci, .unlockDev ci], by simp [hbit, hc], ?_⟩
      intro e he
      simp at he
      rcases he with rfl | rfl | rfl <;> rfl

lemma disconnectSweep_events (prop : ℕ) : ∀ (is : List ℕ) (s : DongleState)
    (ev : List DiscEvent),
    ∃ t, (disconnectSweep prop is s ev).2 = ev ++ t ∧ ∀ e ∈ t, isDcEv e = true := by
  intro is
  induction is with
  | nil => intro s ev; exact ⟨[], by simp [disconnectSweep], by simp⟩
  | cons i rest ih =>
    intro s ev
    obtain ⟨t1, ht1, ht1k⟩ := disconnectStep_events prop i s ev
    obtain ⟨t2, ht2, ht2k⟩ := ih (disconnectStep prop i s ev).1 (disconnectStep prop i s ev).2
    refine ⟨t1 ++ t2, ?_, ?_⟩
    · simp only [disconnectSweep]
      rw [ht2, ht1, List.append_assoc]
    · intro e he
      rcases List.mem_append.mp he with h | h
      · exact ht1k e h
      · exact ht2k e h

lemma disconnectStep_eq_of_bitset (prop j : ℕ) (s : DongleState) (ev : List DiscEvent)
    (hbit : (prop >>> j) % 2 = 1) : disconnectStep prop j s ev = (s, ev) := by
  unfold disconnectStep
  rw [if_pos hbit]

lemma disconnectStep_eq_of_empty (prop j : ℕ) (s : DongleState) (ev : List DiscEvent)
    (hbit : ¬ (prop >>> j) % 2 = 1) (hc : s.children.getD (j - 1) none = none) :
    disconnectStep prop j s ev = (s, ev) := by
  unfold disconnectStep
  rw [if_neg hbit, hc]

lemma disconnectStep_eq_of_swept (prop j : ℕ) (s : DongleState) (ev : List DiscEvent)
    (ci : ℕ) (hbit : ¬ (prop >>> j) % 2 = 1)
    (hc : s.children.getD (j - 1) none = some ci) :
    disconnectStep prop j s ev =
      ({ s with
          children := s.children.set (j - 1) none
          pool := modifyPool
            (modifyPool s.pool ci (fun d => { d with dmutexHeld := true })) ci
            (fun d => { d with dmutexHeld := false }) },
       ev ++ [.lockDev ci, .closeDev ci, .unlockDev ci]) := by
  unfold disconnectStep
  rw [if_neg hbit, hc]

/-- A `getD` that yields `some` certifies the index is in range. -/
lemma getD_children_lt (s : DongleState) (p ci : ℕ)
    (hc : s.children.getD p none = some ci) : p < s.children.length := by
  by_contra hge
  rw [List.getD_eq_getElem?_getD, List.getElem?_eq_none (by omega)] at hc
  simp at hc

lemma disconnectStep_children_other (prop j : ℕ) (s : DongleState) (ev : List DiscEvent)
    (p : ℕ) (hne : p ≠ j - 1) :
    (disconnectStep prop j s ev).1.children.getD p none = s.children.getD p none := by
  by_cases hbit : (prop >>> j) % 2 = 1
  · rw [disconnectStep_eq_of_bitset prop j s ev hbit]
  · cases hc : s.children.getD (j - 1) none with
    | none => rw [disconnectStep_eq_of_empty prop j s ev hbit hc]
    | some ci =>
      rw [disconnectStep_eq_of_swept prop j s ev ci hbit hc]
      simp only
      rw [List.getD_eq_getElem?_getD, List.getD_eq_getElem?_getD,
        List.getElem?_set_ne (fun he => hne he.symm)]

lemma disconnectStep_children_mono (prop j : ℕ) (s : DongleState) (ev : List DiscEvent)
    (p ci : ℕ) (h : (disconnectStep prop j s ev).1.children.getD p none = some ci) :
    s.children.getD p none = some ci := by
  by_cases hne : p = j - 1
  · subst hne
    by_cases hbit : (prop >>> j) % 2 = 1
    · rw [disconnectStep_eq_of_bitset prop j s ev hbit] at h
      exact h
    · cases hc : s.children.getD (j - 1) none with
      | none =>
        rw [disconnectStep_eq_of_empty prop j s ev hbit hc] at h
        rw [← hc]
        exact h
      | some ci' =>
        exfalso
        rw [disconnectStep_eq_of_swept prop j s ev ci' hbit hc] at h
        simp only at h
        rw [List.getD_eq_getElem?_getD,
          List.getElem?_set_self (by simpa using getD_children_lt s (j - 1) ci' hc)] at h
        simp at h
  · rwa [disconnectStep_children_other prop j s ev p hne] at h

lemma SubDev_lock_unlock (d : SubDev) (h : d.dmutexHeld = false) :
    ({ { d with dmutexHeld := true } with dmutexHeld := false } : SubDev) = d := by
  cases d
  simp_all

/-- When the swept child's lifecycle lock is initially free, one disconnect
step leaves every pool entry unchanged (the lock is taken and released). -/
lemma disconnectStep_pool_getD (prop j : ℕ) (s : DongleState) (ev : List DiscEvent)
    (x : ℕ)
    (h : ∀ ci, s.children.getD (j - 1) none = some ci →
      (s.pool.getD ci default).dmutexHeld = false) :
    (disconnectStep prop j s ev).1.pool.getD x default = s.pool.getD x default := by
  by_cases hbit : (prop >>> j) % 2 = 1
  · rw [disconnectStep_eq_of_bitset prop j s ev hbit]
  · cases hc : s.children.getD (j - 1) none with
    | none => rw [disconnectStep_eq_of_empty prop j s ev hbit hc]
    | some ci =>
      rw [disconnectStep_eq_of_swept prop j s ev ci hbit hc]
      simp only
      by_cases hx : x = ci
      · subst hx
        by_cases hlt : x < s.pool.length
        · rw [modifyPool_getD_self _ _ _ (by rw [modifyPool_length]; exact hlt),
            modifyPool_getD_self _ _ _ hlt]
          exact SubDev_lock_unlock _ (h x hc)
        · have h1 : (modifyPool (modifyPool s.pool x
              (fun d => { d with dmutexHeld := true })) x
              (fun d => { d with dmutexHeld := false })).getD x default = default := by
            rw [List.getD_eq_getElem?_getD, List.getElem?_eq_none
              (by rw [modifyPool_length, modifyPool_length]; omega)]
            rfl
          have h2 : s.pool.getD x default = default := by
            rw [List.getD_eq_getElem?_getD, List.getElem?_eq_none (by omega)]
            rfl
          rw [h1, h2]
      · rw [modifyPool_getD_ne _ _ _ _ hx, modifyPool_getD_ne _ _ _ _ hx]

/-- Under the lock-free precondition, the whole disconnect sweep leaves the
pool pointwise unchanged. -/
lemma disconnectSweep_pool_getD (prop : ℕ) : ∀ (is : List ℕ) (s : DongleState)
    (ev : List DiscEvent) (x : ℕ),
    (∀ i ∈ is, ∀ ci, s.children.getD (i - 1) none = some ci →
      (s.pool.getD ci default).dmutexHeld = false) →
    (disconnectSweep prop is s ev).1.pool.getD x default = s.pool.getD x default := by
  intro is
  induction is with
  | nil => intro s ev x _; rfl
  | cons i rest ih =>
    intro s ev x h
    have hstep : ∀ y, (disconnectStep prop i s ev).1.pool.getD y default =
        s.pool.getD y default :=
      fun y => disconnectStep_pool_getD prop i s ev y (h i (by simp))
    simp only [disconnectSweep]
    rw [ih _ _ x ?hrest, hstep x]
    case hrest =>
      intro j hj ci hci
      have hci' : s.children.getD (j - 1) none = some ci :=
        disconnectStep_children_mono prop i s ev _ _ hci
      rw [hstep ci]
      exact h j (by simp [hj]) ci hci'

lemma disconnectStep_children_none_stable (prop j : ℕ) (s : DongleState)
    (ev : List DiscEvent) (p : ℕ) (h : s.children.getD p none = none) :
    (disconnectStep prop j s ev).1.children.getD p none = none := by
  by_cases hne : p = j - 1
  · subst hne
    by_cases hbit : (prop >>> j) % 2 = 1
    · rw [disconnectStep_eq_of_bitset prop j s ev hbit]
      exact h
    · rw [disconnectStep_eq_of_empty prop j s ev hbit h]
      exact h
  · rw [disconnectStep_children_other prop j s ev p hne]
    exact h

lemma disconnectSweep_children_none_stable (prop : ℕ) : ∀ (is : List ℕ)
    (s : DongleState) (ev : List DiscEvent) (p : ℕ),
    s.children.getD p none = none →
    (disconnectSweep prop is s ev).1.children.getD p none = none := by
  intro is
  induction is with
  | nil => intro s ev p h; exact h
  | cons i rest ih =>
    intro s ev p h
    simp only [disconnectSweep]
    exact ih _ _ p (disconnectStep_children_none_stable prop i s ev p h)

/-- A child slot whose presence bit is clear and which is occupied gets
cleared by the disconnect sweep. -/
lemma disconnectSweep_children_cleared (prop : ℕ) : ∀ (is : List ℕ) (s : DongleState)
    (ev : List DiscEvent) (i ci : ℕ),
    (∀ j ∈ is, 1 ≤ j) → i ∈ is → ¬ (prop >>> i) % 2 = 1 →
    s.children.getD (i - 1) none = some ci →
    (disconnectSweep prop is s ev).1.children.getD (i - 1) none = none := by
  intro is
  induction is with
  | nil => intro s ev i ci _ hmem; simp at hmem
  | cons j rest ih =>
    intro s ev i ci h1 hmem hbit hc
    simp only [disconnectSweep]
    by_cases hij : i = j
    · subst hij
      have hswept := disconnectStep_eq_of_swept prop i s ev ci hbit hc
      have hcleared : (disconnectStep prop i s ev).1.children.getD (i - 1) none = none := by
        rw [hswept]
        simp only
        rw [List.getD_eq_getElem?_getD, List.getElem?_set_self
          (by simpa using getD_children_lt s (i - 1) ci hc)]
        rfl
      exact disconnectSweep_children_none_stable prop rest _ _ _ hcleared
    · have hne : i - 1 ≠ j - 1 := by
        have := h1 j (by simp)
        have := h1 i (by simp [hmem])
        omega
      have hkeep : (disconnectStep prop j s ev).1.children.getD (i - 1) none = some ci := by
        rw [disconnectStep_children_other prop j s ev _ hne]
        exact hc
      exact ih _ _ i ci (fun x hx => h1 x (by simp [hx]))
        (by rcases List.mem_cons.mp hmem with h | h; exact absurd h hij; exact h)
        hbit hkeep

/-- A child slot whose presence bit is set, or which is already empty, is
left untouched by the disconnect sweep. -/
lemma disconnectSweep_children_kept (prop : ℕ) : ∀ (is : List ℕ) (s : DongleState)
    (ev : List DiscEvent) (i : ℕ),
    (∀ j ∈ is, 1 ≤ j) → 1 ≤ i →
    ((prop >>> i) % 2 = 1 ∨ s.children.getD (i - 1) none = none) →
    (disconnectSweep prop is s ev).1.children.getD (i - 1) none =
      s.children.getD (i - 1) none := by
  intro is
  induction is with
  | nil => intro s ev i _ _ _; rfl
  | cons j rest ih =>
    intro s ev i h1 hi hkeep
    simp only [disconnectSweep]
    by_cases hij : i = j
    · subst hij
      rcases hkeep with hbit | hempty
      · rw [disconnectStep_eq_of_bitset prop i s ev hbit]
        exact ih _ _ i (fun x hx => h1 x (by simp [hx])) hi (Or.inl hbit)
      · by_cases hbit : (prop >>> i) % 2 = 1
        · rw [disconnectStep_eq_of_bitset prop i s ev hbit]
          exact ih _ _ i (fun x hx => h1 x (by simp [hx])) hi (Or.inl hbit)
        · rw [disconnectStep_eq_of_empty prop i s ev hbit hempty]
          exact ih _ _ i (fun x hx => h1 x (by simp [hx])) hi (Or.inr hempty)
    · have hne : i - 1 ≠ j - 1 := by
        have := h1 j (by simp)
        omega
      have hother := disconnectStep_children_other prop j s ev (i - 1) hne
      rw [ih _ _ i (fun x hx => h1 x (by simp [hx])) hi ?hkeep, hother]
      case hkeep =>
        rcases hkeep with hbit | hempty
        · exact Or.inl hbit
        · exact Or.inr (by rw [hother]; exact hempty)

/-- The lock/close/unlock event block of a swept child appears in the
disconnect sweep's trace. -/
lemma disconnectSweep_close_event (prop : ℕ) : ∀ (is : List ℕ) (s : DongleState)
    (ev : List DiscEvent) (i ci : ℕ),
    (∀ j ∈ is, 1 ≤ j) → i ∈ is → ¬ (prop >>> i) % 2 = 1 →
    s.children.getD (i - 1) none = some ci →
    [DiscEvent.lockDev ci, DiscEvent.closeDev ci, DiscEvent.unlockDev ci] <:+:
      (disconnectSweep prop is s ev).2 := by
  intro is
  induction is with
  | nil => intro s ev i ci _ hmem; simp at hmem
  | cons j rest ih =>
    intro s ev i ci h1 hmem hbit hc
    simp only [disconnectSweep]
    by_cases hij : i = j
    · subst hij
      have hswept := disconnectStep_eq_of_swept prop i s ev ci hbit hc
      obtain ⟨t, ht, -⟩ := disconnectSweep_events prop rest
        (disconnectStep prop i s ev).1 (disconnectStep prop i s ev).2
      rw [ht, hswept]
      simp only
      exact List.infix_append ev _ t
    · have hne : i - 1 ≠ j - 1 := by
        have := h1 j (by simp)
        have := h1 i (by simp [hmem])
        omega
      have hkeep : (disconnectStep prop j s ev).1.children.getD (i - 1) none = some ci := by
        rw [disconnectStep_children_other prop j s ev _ hne]
        exact hc
      exact ih _ _ i ci (fun x hx => h1 x (by simp [hx]))
        (by rcases List.mem_cons.mp hmem with h | h; exact absurd h hij; exact h)
        hbit hkeep

/-- The disconnect sweep is a no-op when every listed slot has its bit set
or is already empty. -/
lemma disconnectSweep_noop (prop : ℕ) : ∀ (is : List ℕ) (s : DongleState)
    (ev : List DiscEvent),
    (∀ i ∈ is, (prop >>> i) % 2 = 1 ∨ s.children.getD (i - 1) none = none) →
    disconnectSweep prop is s ev = (s, ev) := by
  intro is
  induction is with
  | nil => intro s ev _; rfl
  | cons i rest ih =>
    intro s ev h
    have hstep : disconnectStep prop i s ev = (s, ev) := by
      rcases h i (by simp) with hbit | hempty
      · exact disconnectStep_eq_of_bitset prop i s ev hbit
      · by_cases hbit : (prop >>> i) % 2 = 1
        · exact disconnectStep_eq_of_bitset prop i s ev hbit
        · exact disconnectStep_eq_of_empty prop i s ev hbit hempty
    simp only [disconnectSweep, hstep]
    exact ih s ev (fun j hj => h j (by simp [hj]))

lemma connectScan_eq_skip_held (oracle : ℕ → ℕ → ℤ) (i idx : ℕ) (rest : List ℕ)
    (s : DongleState) (ev : List DiscEvent)
    (hheld : (s.pool.getD idx default).dmutexHeld = true) :
    connectScan oracle i (idx :: rest) s ev =
      connectScan oracle i rest s (ev ++ [.trylockDev idx false]) := by
  have hheld' : (s.pool[idx]?.getD default).dmutexHeld = true := by
    rw [← List.getD_eq_getElem?_getD]
    exact hheld
  simp [connectScan, hheld']

lemma connectScan_eq_skip_busy (oracle : ℕ → ℕ → ℤ) (i idx : ℕ) (rest : List ℕ)
    (s : DongleState) (ev : List DiscEvent)
    (hheld : (s.pool.getD idx default).dmutexHeld = false)
    (hstat : DEV_STATUS_DISCONNECTED < (s.pool.getD idx default).status) :
    connectScan oracle i (idx :: rest) s ev =
      connectScan oracle i rest s (ev ++ [.trylockDev idx true, .unlockDev idx]) := by
  have hheld' : (s.pool[idx]?.getD default).dmutexHeld = false := by
    rw [← List.getD_eq_getElem?_getD]
    exact hheld
  have hstat' : DEV_STATUS_DISCONNECTED < (s.pool[idx]?.getD default).status := by
    rw [← List.getD_eq_getElem?_getD]
    exact hstat
  simp [connectScan, hheld', hstat']

lemma connectScan_eq_claim (oracle : ℕ → ℕ → ℤ) (i idx : ℕ) (rest : List ℕ)
    (s : DongleState) (ev : List DiscEvent)
    (hfree : freeDev (s.pool.getD idx default)) :
    connectScan oracle i (idx :: rest) s ev =
      ({ s with
          pool := modifyPool s.pool idx (bragi_claim_fields s oracle i idx)
          children := s.children.set (i - 1) (some idx)
          cmutexHeld := false },
       ev ++ [.trylockDev idx true, .unlockChildren, .usbTransaction idx BRAGI_VID,
         .usbTransaction idx BRAGI_PID, .setupDev idx], true) := by
  obtain ⟨hheld, hstat⟩ := hfree
  have hheld' : (s.pool[idx]?.getD default).dmutexHeld = false := by
    rw [← List.getD_eq_getElem?_getD]
    exact hheld
  have hstat' : ¬ DEV_STATUS_DISCONNECTED < (s.pool[idx]?.getD default).status := by
    rw [← List.getD_eq_getElem?_getD]
    exact hstat
  simp [connectScan, hheld', hstat']

/-- A scan over entries none of which is free reports the failure and leaves
the state unchanged. -/
lemma connectScan_none (oracle : ℕ → ℕ → ℤ) (i : ℕ) : ∀ (idxs : List ℕ)
    (s : DongleState) (ev : List DiscEvent),
    (∀ x ∈ idxs, ¬ freeDev (s.pool.getD x default)) →
    ∃ t, connectScan oracle i idxs s ev = (s, ev ++ t ++ [.reportNoFree], false) ∧
      ∀ e ∈ t, isSkipEv e = true := by
  intro idxs
  induction idxs with
  | nil => intro s ev _; exact ⟨[], by simp [connectScan], by simp⟩
  | cons idx rest ih =>
    intro s ev h
    have hnf := h idx (by simp)
    by_cases hheld : (s.pool.getD idx default).dmutexHeld = true
    · obtain ⟨t, hts, htk⟩ := ih s (ev ++ [.trylockDev idx false])
        (fun x hx => h x (by simp [hx]))
      refine ⟨[DiscEvent.trylockDev idx false] ++ t, ?_, ?_⟩
      · rw [connectScan_eq_skip_held oracle i idx rest s ev hheld, hts]
        simp
      · intro e he
        rcases List.mem_append.mp he with h' | h'
        · simp at h'
          subst h'
          rfl
        · exact htk e h'
    · have hheld' : (s.pool.getD idx default).dmutexHeld = false := by
        cases hb : (s.pool.getD idx default).dmutexHeld
        · rfl
        · exact absurd hb hheld
      have hstat : DEV_STATUS_DISCONNECTED < (s.pool.getD idx default).status := by
        by_contra hcon
        exact hnf ⟨hheld', hcon⟩
      obtain ⟨t, hts, htk⟩ := ih s (ev ++ [.trylockDev idx true, .unlockDev idx])
        (fun x hx => h x (by simp [hx]))
      refine ⟨[DiscEvent.trylockDev idx true, DiscEvent.unlockDev idx] ++ t, ?_, ?_⟩
      · rw [connectScan_eq_skip_busy oracle i idx rest s ev hheld' hstat, hts]
        simp
      · intro e he
        rcases List.mem_append.mp he with h' | h'
        · simp at h'
          rcases h' with rfl | rfl <;> rfl
        · exact htk e h'

/-- A scan whose first free entry is `idx` claims exactly that entry and
returns early. -/
lemma connectScan_found (oracle : ℕ → ℕ → ℤ) (i : ℕ) : ∀ (pre : List ℕ) (idx : ℕ)
    (rest : List ℕ) (s : DongleState) (ev : List DiscEvent),
    (∀ x ∈ pre, ¬ freeDev (s.pool.getD x default)) →
    freeDev (s.pool.getD idx default) →
    ∃ t, connectScan oracle i (pre ++ idx :: rest) s ev =
      ({ s with
          pool := modifyPool s.pool idx (bragi_claim_fields s oracle i idx)
          children := s.children.set (i - 1) (some idx)
          cmutexHeld := false },
       ev ++ t ++ [.trylockDev idx true, .unlockChildren, .usbTransaction idx BRAGI_VID,
         .usbTransaction idx BRAGI_PID, .setupDev idx], true) ∧
      ∀ e ∈ t, isSkipEv e = true := by
  intro pre
  induction pre with
  | nil =>
    intro idx rest s ev _ hfree
    refine ⟨[], ?_, by simp⟩
    rw [List.nil_append, connectScan_eq_claim oracle i idx rest s ev hfree]
    simp
  | cons y pre' ih =>
    intro idx rest s ev hpre hfree
    have hnf := hpre y (by simp)
    by_cases hheld : (s.pool.getD y default).dmutexHeld = true
    · obtain ⟨t, hts, htk⟩ := ih idx rest s (ev ++ [.trylockDev y false])
        (fun x hx => hpre x (by simp [hx])) hfree
      refine ⟨[DiscEvent.trylockDev y false] ++ t, ?_, ?_⟩
      · rw [List.cons_append, connectScan_eq_skip_held oracle i y (pre' ++ idx :: rest)
          s ev hheld, hts]
        simp
      · intro e he
        rcases List.mem_append.mp he with h' | h'
        · simp at h'
          subst h'
          rfl
        · exact htk e h'
    · have hheld' : (s.pool.getD y default).dmutexHeld = false := by
        cases hb : (s.pool.getD y default).dmutexHeld
        · rfl
        · exact absurd hb hheld
      have hstat : DEV_STATUS_DISCONNECTED < (s.pool.getD y default).status := by
        by_contra hcon
        exact hnf ⟨hheld', hcon⟩
      obtain ⟨t, hts, htk⟩ := ih idx rest s (ev ++ [.trylockDev y true, .unlockDev y])
        (fun x hx => hpre x (by simp [hx])) hfree
      refine ⟨[DiscEvent.trylockDev y true, DiscEvent.unlockDev y] ++ t, ?_, ?_⟩
      · rw [List.cons_append, connectScan_eq_skip_busy oracle i y (pre' ++ idx :: rest)
          s ev hheld' hstat, hts]
        simp
      · intro e he
        rcases List.mem_append.mp he with h' | h'
        · simp at h'
          rcases h' with rfl | rfl <;> rfl
        · exact htk e h'

lemma connectSweep_skip (oracle : ℕ → ℕ → ℤ) (prop i : ℕ) (rest : List ℕ)
    (s : DongleState) (ev : List DiscEvent) (h : ¬ needsSlot prop s i) :
    connectSweep oracle prop (i :: rest) s ev = connectSweep oracle prop rest s ev := by
  by_cases hbit : (prop >>> i) % 2 = 1
  · have hocc : (s.children.getD (i - 1) none).isSome = true := by
      rcases ho : s.children.getD (i - 1) none with _ | ci
      · exact absurd ⟨hbit, ho⟩ h
      · simp
    simp only [connectSweep]
    rw [if_pos hbit, if_pos hocc]
  · simp only [connectSweep]
    rw [if_neg hbit]

/-- The connect sweep is a no-op when no listed slot needs a connect. -/
lemma connectSweep_noop (oracle : ℕ → ℕ → ℤ) (prop : ℕ) : ∀ (is : List ℕ)
    (s : DongleState) (ev : List DiscEvent),
    (∀ i ∈ is, ¬ needsSlot prop s i) →
    connectSweep oracle prop is s ev = (s, ev, false) := by
  intro is
  induction is with
  | nil => intro s ev _; simp [connectSweep]
  | cons i rest ih =>
    intro s ev h
    rw [connectSweep_skip oracle prop i rest s ev (h i (by simp))]
    exact ih s ev (fun j hj => h j (by simp [hj]))

/-- The first needy bit together with the first free pool entry determine
the connect sweep's early-return outcome. -/
lemma connectSweep_found (oracle : ℕ → ℕ → ℤ) (prop : ℕ) : ∀ (pre : List ℕ) (i : ℕ)
    (post : List ℕ) (s : DongleState) (ev : List DiscEvent),
    (∀ j ∈ pre, ¬ needsSlot prop s j) → needsSlot prop s i →
    ∀ (preIdx : List ℕ) (idx : ℕ) (postIdx : List ℕ),
      List.range' 1 (s.pool.length - 1) = preIdx ++ idx :: postIdx →
      (∀ x ∈ preIdx, ¬ freeDev (s.pool.getD x default)) →
      freeDev (s.pool.getD idx default) →
      ∃ t, connectSweep oracle prop (pre ++ i :: post) s ev =
        ({ s with
            pool := modifyPool s.pool idx (bragi_claim_fields s oracle i idx)
            children := s.children.set (i - 1) (some idx)
            cmutexHeld := false },
         ev ++ t ++ [.trylockDev idx true, .unlockChildren, .usbTransaction idx BRAGI_VID,
           .usbTransaction idx BRAGI_PID, .setupDev idx], true) ∧
        ∀ e ∈ t, isSkipEv e = true := by
  intro pre
  induction pre with
  | nil =>
    intro i post s ev _ hneed preIdx idx postIdx hrange hpre hfree
    obtain ⟨hbit, hempty⟩ := hneed
    have hocc : ¬ (s.children.getD (i - 1) none).isSome = true := by
      rw [hempty]
      simp
    obtain ⟨t, hscan, htk⟩ := connectScan_found oracle i preIdx idx postIdx s ev hpre hfree
    refine ⟨t, ?_, htk⟩
    rw [List.nil_append]
    simp only [connectSweep]
    rw [if_pos hbit, if_neg hocc, hrange, hscan]
  | cons j pre' ih =>
    intro i post s ev hpre hneed preIdx idx postIdx hrange hpreIdx hfree
    rw [List.cons_append, connectSweep_skip oracle prop j (pre' ++ i :: post) s ev
      (hpre j (by simp))]
    exact ih i post s ev (fun x hx => hpre x (by simp [hx])) hneed preIdx idx postIdx
      hrange hpreIdx hfree

/-- When the pool has no free entry, the connect sweep reports each needy
bit and terminates with the state unchanged. -/
lemma connectSweep_nofree (oracle : ℕ → ℕ → ℤ) (prop : ℕ) : ∀ (is : List ℕ)
    (s : DongleState) (ev : List DiscEvent),
    (∀ x ∈ List.range' 1 (s.pool.length - 1), ¬ freeDev (s.pool.getD x default)) →
    ∃ t, connectSweep oracle prop is s ev = (s, ev ++ t, false) ∧
      (∀ e ∈ t, isSkipEv e = true) ∧
      ((∃ i ∈ is, needsSlot prop s i) → DiscEvent.reportNoFree ∈ t) := by
  intro is
  induction is with
  | nil =>
    intro s ev _
    exact ⟨[], by simp [connectSweep], by simp, by simp⟩
  | cons i rest ih =>
    intro s ev h
    by_cases hneed : needsSlot prop s i
    · obtain ⟨hbit, hempty⟩ := hneed
      have hocc : ¬ (s.children.getD (i - 1) none).isSome = true := by
        rw [hempty]
        simp
      obtain ⟨t1, hscan, ht1⟩ :=
        connectScan_none oracle i (List.range' 1 (s.pool.length - 1)) s ev h
      obtain ⟨t2, hrest, ht2, hrep⟩ := ih s (ev ++ t1 ++ [.reportNoFree]) h
      refine ⟨t1 ++ [DiscEvent.reportNoFree] ++ t2, ?_, ?_, ?_⟩
      · simp only [connectSweep]
        rw [if_pos hbit, if_neg hocc, hscan]
        simp only
        rw [hrest]
        simp
      · intro e he
        rcases List.mem_append.mp he with h' | h'
        · rcases List.mem_append.mp h' with h'' | h''
          · exact ht1 e h''
          · simp at h''
            subst h''
            rfl
        · exact ht2 e h'
      · intro _
        simp
    · obtain ⟨t2, hrest, ht2, hrep⟩ := ih s ev h
      refine ⟨t2, ?_, ht2, ?_⟩
      · rw [connectSweep_skip oracle prop i rest s ev hneed, hrest]
      · rintro ⟨j, hj, hns⟩
        rcases List.mem_cons.mp hj with rfl | hj'
        · exact absurd hns hneed
        · exact hrep ⟨j, hj', hns⟩

/-- C6: at most one sub-device is connected per invocation; field
assignments, lock ordering and the early return are as claimed; a pool with
no free slot is reported per needy bit and the sweep continues. -/
theorem bragi_connect_sweep_spec (oracle : ℕ → ℕ → ℤ) (prop : ℕ) (s : DongleState)
    (ev : List DiscEvent) : BragiConnectSweepOk oracle prop s ev := by
  constructor
  · intro pre i post hsplit hpre hneed preIdx idx postIdx hrange hpreIdx hfree
    obtain ⟨t, hres, htk⟩ := connectSweep_found oracle prop pre i post s ev hpre hneed
      preIdx idx postIdx hrange hpreIdx hfree
    rw [← hsplit] at hres
    refine ⟨t, hres, htk, ?_, ?_⟩
    · intro hlt
      rw [hres]
      simp only
      rw [modifyPool_getD_self _ _ _ hlt]
      exact ⟨rfl, rfl, rfl, rfl, rfl⟩
    · intro x hx
      rw [hres]
      simp only
      rw [modifyPool_getD_ne _ _ _ _ hx]
  · intro hnofree
    exact connectSweep_nofree oracle prop [1, 2, 3, 4, 5, 6, 7] s ev hnofree

/-- Witness for C6 at a concrete input: presence bitmask with only bit 3
set, empty children array, a pool whose entry 1 is busy and entry 2 is
free; instantiating the theorem's first conjunct shows entry 2 is claimed
for child id 3: its status becomes `Connecting` and `children[2]` now holds
pool index 2. -/
theorem bragi_connect_sweep_spec_witness :
    BragiConnectSweepOk (fun _ _ => 0x1b1c) 8
      ⟨64, true, [none, none, none, none, none, none, none],
        [default, ⟨2, true, 7, none, 64, 1, 0, 0, 0⟩, ⟨0, false, 7, none, 64, 1, 0, 0, 0⟩]⟩
      [] ∧
    (connectSweep (fun _ _ => 0x1b1c) 8 [1, 2, 3, 4, 5, 6, 7]
      ⟨64, true, [none, none, none, none, none, none, none],
        [default, ⟨2, true, 7, none, 64, 1, 0, 0, 0⟩, ⟨0, false, 7, none, 64, 1, 0, 0, 0⟩]⟩
      []).2.2 = true ∧
    ((connectSweep (fun _ _ => 0x1b1c) 8 [1, 2, 3, 4, 5, 6, 7]
      ⟨64, true, [none, none, none, none, none, none, none],
        [default, ⟨2, true, 7, none, 64, 1, 0, 0, 0⟩, ⟨0, false, 7, none, 64, 1, 0, 0, 0⟩]⟩
      []).1.children.getD 2 none = some 2 ∧
    ((connectSweep (fun _ _ => 0x1b1c) 8 [1, 2, 3, 4, 5, 6, 7]
      ⟨64, true, [none, none, none, none, none, none, none],
        [default, ⟨2, true, 7, none, 64, 1, 0, 0, 0⟩, ⟨0, false, 7, none, 64, 1, 0, 0, 0⟩]⟩
      []).1.pool.getD 2 default).status = DEV_STATUS_CONNECTING) :=
  ⟨bragi_connect_sweep_spec (fun _ _ => 0x1b1c) 8
    ⟨64, true, [none, none, none, none, none, none, none],
      [default, ⟨2, true, 7, none, 64, 1, 0, 0, 0⟩, ⟨0, false, 7, none, 64, 1, 0, 0, 0⟩]⟩
    [], by decide, by decide, by decide⟩

/-- C8: the disconnect sweep's per-slot behaviour.  The hypothesis states
that no occupied child's lifecycle lock is currently held (the blocking
acquisition in the source has completed its assumed-bounded wait). -/
theorem bragi_disconnect_sweep_spec (prop : ℕ) (s : DongleState) (ev : List DiscEvent)
    (hheld : ∀ p ci, s.children.getD p none = some ci →
      (s.pool.getD ci default).dmutexHeld = false) :
    BragiDisconnectSweepOk prop s ev := by
  intro i hi
  have h17 : ∀ j ∈ [1, 2, 3, 4, 5, 6, 7], (1 : ℕ) ≤ j := by
    intro j hj
    simp at hj
    omega
  have hpool : ∀ x, (disconnectSweep prop [1, 2, 3, 4, 5, 6, 7] s ev).1.pool.getD x
      default = s.pool.getD x default :=
    fun x => disconnectSweep_pool_getD prop _ s ev x
      (fun j _ ci hc => hheld (j - 1) ci hc)
  constructor
  · intro ci hbit hc
    refine ⟨disconnectSweep_children_cleared prop _ s ev i ci h17 hi hbit hc, ?_,
      disconnectSweep_close_event prop _ s ev i ci h17 hi hbit hc⟩
    rw [hpool ci]
    exact hheld (i - 1) ci hc
  · intro hkeep
    exact ⟨disconnectSweep_children_kept prop _ s ev i h17 (h17 i hi) hkeep,
      fun ci _ => hpool ci⟩

/-- Witness for C8 at the spec's example: presence bit 2 cleared while
`children[1]` is occupied (pool index 2); that slot is closed and cleared
and the device's lifecycle lock is not held afterwards, while the present
child 1 keeps its slot. -/
theorem bragi_disconnect_sweep_spec_witness :
    (∀ p ci, (⟨64, true, [some 1, some 2, none, none, none, none, none],
        [default, ⟨2, false, 7, some (), 64, 1, 1, 0, 0⟩,
          ⟨2, false, 7, some (), 64, 1, 2, 0, 0⟩]⟩ :
        DongleState).children.getD p none = some ci →
      (((⟨64, true, [some 1, some 2, none, none, none, none, none],
        [default, ⟨2, false, 7, some (), 64, 1, 1, 0, 0⟩,
          ⟨2, false, 7, some (), 64, 1, 2, 0, 0⟩]⟩ :
        DongleState).pool.getD ci default).dmutexHeld = false)) ∧
    BragiDisconnectSweepOk 2
      ⟨64, true, [some 1, some 2, none, none, none, none, none],
        [default, ⟨2, false, 7, some (), 64, 1, 1, 0, 0⟩,
          ⟨2, false, 7, some (), 64, 1, 2, 0, 0⟩]⟩ [] := by
  have hheld : ∀ p ci, (⟨64, true, [some 1, some 2, none, none, none, none, none],
      [default, ⟨2, false, 7, some (), 64, 1, 1, 0, 0⟩,
        ⟨2, false, 7, some (), 64, 1, 2, 0, 0⟩]⟩ :
      DongleState).children.getD p none = some ci →
      (((⟨64, true, [some 1, some 2, none, none, none, none, none],
        [default, ⟨2, false, 7, some (), 64, 1, 1, 0, 0⟩,
          ⟨2, false, 7, some (), 64, 1, 2, 0, 0⟩]⟩ :
        DongleState).pool.getD ci default).dmutexHeld = false) := by
    intro p ci hc
    by_cases hp : p < 7
    · interval_cases p <;> simp_all <;> subst hc <;> decide
    · rw [List.getD_eq_getElem?_getD, List.getElem?_eq_none (by simp; omega)] at hc
      simp at hc
  exact ⟨hheld, bragi_disconnect_sweep_spec 2 _ [] hheld⟩

/-- C9: discovery is idempotent once the children array matches the
bitmask: every set bit's slot occupied, every clear bit's slot empty. -/
theorem bragi_discovery_idempotent_spec (oracle : ℕ → ℕ → ℤ) (s₀ : DongleState)
    (prop : ℕ) (hcm : s₀.cmutexHeld = false)
    (hpop : ∀ i ∈ [1, 2, 3, 4, 5, 6, 7],
      ((prop >>> i) % 2 = 1 ↔ (s₀.children.getD (i - 1) none).isSome = true)) :
    BragiDiscoveryIdempotentOk oracle s₀ prop := by
  have hdc : disconnectSweep prop [1, 2, 3, 4, 5, 6, 7] { s₀ with cmutexHeld := true }
      [DiscEvent.lockChildren] =
      ({ s₀ with cmutexHeld := true }, [DiscEvent.lockChildren]) := by
    apply disconnectSweep_noop
    intro i hi
    by_cases hbit : (prop >>> i) % 2 = 1
    · exact Or.inl hbit
    · right
      rcases ho : s₀.children.getD (i - 1) none with _ | ci
      · rfl
      · exact absurd ((hpop i hi).mpr (by rw [ho]; rfl)) hbit
  have hcs : connectSweep oracle prop [1, 2, 3, 4, 5, 6, 7]
      { s₀ with cmutexHeld := true } [DiscEvent.lockChildren] =
      ({ s₀ with cmutexHeld := true }, [DiscEvent.lockChildren], false) := by
    apply connectSweep_noop
    rintro i hi ⟨hbit, hempty⟩
    have hsome := (hpop i hi).mp hbit
    have hempty' : s₀.children.getD (i - 1) none = none := hempty
    rw [hempty'] at hsome
    simp at hsome
  have heta : ({ { s₀ with cmutexHeld := true } with cmutexHeld := false } :
      DongleState) = s₀ := by
    cases s₀
    simp_all
  unfold BragiDiscoveryIdempotentOk bragi_update_dongle_subdevs
  simp only [hdc, hcs, heta]
  rfl

/-- Witness for C9 at a concrete input: bits 1 and 3 set, slots 0 and 2
occupied, everything else empty; the invocation returns the state unchanged
with only the lock/unlock pair in the trace. -/
theorem bragi_discovery_idempotent_spec_witness :
    (⟨64, false, [some 1, none, some 2, none, none, none, none],
      [default, ⟨2, false, 7, some (), 64, 1, 1, 0, 0⟩,
        ⟨2, false, 7, some (), 64, 1, 3, 0, 0⟩]⟩ : DongleState).cmutexHeld = false ∧
    (∀ i ∈ [1, 2, 3, 4, 5, 6, 7], ((10 >>> i) % 2 = 1 ↔
      ((⟨64, false, [some 1, none, some 2, none, none, none, none],
        [default, ⟨2, false, 7, some (), 64, 1, 1, 0, 0⟩,
          ⟨2, false, 7, some (), 64, 1, 3, 0, 0⟩]⟩ :
        DongleState).children.getD (i - 1) none).isSome = true)) ∧
    BragiDiscoveryIdempotentOk (fun _ _ => 0x1b1c)
      ⟨64, false, [some 1, none, some 2, none, none, none, none],
        [default, ⟨2, false, 7, some (), 64, 1, 1, 0, 0⟩,
          ⟨2, false, 7, some (), 64, 1, 3, 0, 0⟩]⟩ 10 :=
  ⟨rfl, by decide,
   bragi_discovery_idempotent_spec (fun _ _ => 0x1b1c) _ 10 rfl (by decide)⟩

/-- Split a list at the first element satisfying a predicate. -/
lemma list_first_split {α : Type} (p : α → Prop) : ∀ (l : List α), (∃ x ∈ l, p x) →
    ∃ pre x post, l = pre ++ x :: post ∧ p x ∧ ∀ y ∈ pre, ¬ p y := by
  intro l
  induction l with
  | nil => rintro ⟨x, hx, -⟩; simp at hx
  | cons a t ih =>
    intro hex
    by_cases ha : p a
    · exact ⟨[], a, t, rfl, ha, by simp⟩
    · obtain ⟨x, hx, hpx⟩ := hex
      rcases List.mem_cons.mp hx with rfl | hx'
      · exact absurd hpx ha
      · obtain ⟨pre, x', post, heq, hpx', hpre⟩ := ih ⟨x, hx', hpx⟩
        refine ⟨a :: pre, x', post, by rw [heq]; rfl, hpx', ?_⟩
        intro y hy
        rcases List.mem_cons.mp hy with rfl | hy'
        · exact ha
        · exact hpre y hy'

lemma dc_kind_no_children_locks (t : List DiscEvent)
    (h : ∀ e ∈ t, isDcEv e = true) :
    t.count DiscEvent.lockChildren = 0 ∧ t.count DiscEvent.unlockChildren = 0 ∧
    (∀ x, DiscEvent.setupDev x ∉ t) ∧ (∀ e ∈ t, isUsbEv e = false) := by
  refine ⟨?_, ?_, ?_, ?_⟩
  · rw [List.count_eq_zero]
    intro hmem
    have := h _ hmem
    simp [isDcEv] at this
  · rw [List.count_eq_zero]
    intro hmem
    have := h _ hmem
    simp [isDcEv] at this
  · intro x hmem
    have := h _ hmem
    simp [isDcEv] at this
  · intro e he
    have := h e he
    cases e <;> simp_all [isDcEv, isUsbEv]

lemma skip_kind_no_children_locks (t : List DiscEvent)
    (h : ∀ e ∈ t, isSkipEv e = true) :
    t.count DiscEvent.lockChildren = 0 ∧ t.count DiscEvent.unlockChildren = 0 ∧
    (∀ x, DiscEvent.setupDev x ∉ t) ∧ (∀ e ∈ t, isUsbEv e = false) := by
  refine ⟨?_, ?_, ?_, ?_⟩
  · rw [List.count_eq_zero]
    intro hmem
    have := h _ hmem
    simp [isSkipEv] at this
  · rw [List.count_eq_zero]
    intro hmem
    have := h _ hmem
    simp [isSkipEv] at this
  · intro x hmem
    have := h _ hmem
    simp [isSkipEv] at this
  · intro e he
    have := h e he
    cases e <;> simp_all [isSkipEv, isUsbEv]

/-- C7, shared closing argument for the two paths on which the connect
sweep claims nothing: the protocol then ends by releasing the children-set
lock itself. -/
lemma bragi_discovery_lock_noclaim (oracle : ℕ → ℕ → ℤ) (s₀ : DongleState) (prop : ℕ)
    (hheld : ∀ p ci, s₀.children.getD p none = some ci →
      (s₀.pool.getD ci default).dmutexHeld = false)
    (t' : List DiscEvent) (ht' : ∀ e ∈ t', isSkipEv e = true)
    (hres : connectSweep oracle prop [1, 2, 3, 4, 5, 6, 7]
        (disconnectSweep prop [1, 2, 3, 4, 5, 6, 7] { s₀ with cmutexHeld := true }
          [DiscEvent.lockChildren]).1
        (disconnectSweep prop [1, 2, 3, 4, 5, 6, 7] { s₀ with cmutexHeld := true }
          [DiscEvent.lockChildren]).2 =
      ((disconnectSweep prop [1, 2, 3, 4, 5, 6, 7] { s₀ with cmutexHeld := true }
          [DiscEvent.lockChildren]).1,
       (disconnectSweep prop [1, 2, 3, 4, 5, 6, 7] { s₀ with cmutexHeld := true }
          [DiscEvent.lockChildren]).2 ++ t', false)) :
    BragiDiscoveryLockOk oracle s₀ prop := by
  obtain ⟨tD, htD, htDk⟩ := disconnectSweep_events prop [1, 2, 3, 4, 5, 6, 7]
    { s₀ with cmutexHeld := true } [DiscEvent.lockChildren]
  obtain ⟨cD0, cD1, cD2, cD3⟩ := dc_kind_no_children_locks tD htDk
  obtain ⟨cS0, cS1, cS2, cS3⟩ := skip_kind_no_children_locks t' ht'
  have hupd : bragi_update_dongle_subdevs oracle s₀ prop =
      ({ (disconnectSweep prop [1, 2, 3, 4, 5, 6, 7] { s₀ with cmutexHeld := true }
          [DiscEvent.lockChildren]).1 with cmutexHeld := false },
       (disconnectSweep prop [1, 2, 3, 4, 5, 6, 7] { s₀ with cmutexHeld := true }
          [DiscEvent.lockChildren]).2 ++ t' ++ [DiscEvent.unlockChildren]) := by
    unfold bragi_update_dongle_subdevs
    simp only
    rw [hres]
  have hev : (bragi_update_dongle_subdevs oracle s₀ prop).2 =
      DiscEvent.lockChildren :: (tD ++ t' ++ [DiscEvent.unlockChildren]) := by
    rw [hupd]
    simp only
    rw [htD]
    simp
  have hpoolD : ∀ x, (disconnectSweep prop [1, 2, 3, 4, 5, 6, 7]
      { s₀ with cmutexHeld := true } [DiscEvent.lockChildren]).1.pool.getD x default =
      s₀.pool.getD x default :=
    fun x => disconnectSweep_pool_getD prop _ _ _ x (fun j _ ci hc => hheld (j - 1) ci hc)
  refine ⟨?_, ?_, ?_, ?_, ?_, ?_⟩
  · rw [hev]
    simp [List.count_cons, List.count_append, cD0, cS0]
  · rw [hev]
    simp [List.count_cons, List.count_append, cD1, cS1]
  · rw [hev]
    rfl
  · rw [hupd]
  · refine ⟨DiscEvent.lockChildren :: (tD ++ t'), [], ?_, ?_⟩
    · rw [hev]
      simp
    · intro e he
      rcases List.mem_cons.mp he with rfl | he'
      · rfl
      · rcases List.mem_append.mp he' with h | h
        · exact cD3 e h
        · exact cS3 e h
  · intro x
    constructor
    · intro hmem
      exfalso
      rw [hev] at hmem
      rcases List.mem_cons.mp hmem with h | h
      · simp at h
      · rcases List.mem_append.mp h with h' | h'
        · rcases List.mem_append.mp h' with h'' | h''
          · exact cD2 x h''
          · exact cS2 x h''
        · simp at h'
    · intro _
      rw [hupd]
      have hproj : ({ (disconnectSweep prop [1, 2, 3, 4, 5, 6, 7]
          { s₀ with cmutexHeld := true } [DiscEvent.lockChildren]).1 with
          cmutexHeld := false } : DongleState).pool =
          (disconnectSweep prop [1, 2, 3, 4, 5, 6, 7] { s₀ with cmutexHeld := true }
            [DiscEvent.lockChildren]).1.pool := rfl
      simp only [hproj]
      rw [hpoolD x]

/-- C7: children-set lock acquired once and released exactly once on every
path, before any USB transaction; skipped lifecycle locks restored; the
claimed entry's lifecycle lock handed off still held. -/
theorem bragi_discovery_lock_spec (oracle : ℕ → ℕ → ℤ) (s₀ : DongleState) (prop : ℕ)
    (hheld : ∀ p ci, s₀.children.getD p none = some ci →
      (s₀.pool.getD ci default).dmutexHeld = false) :
    BragiDiscoveryLockOk oracle s₀ prop := by
  by_cases hneedE : ∃ i ∈ [1, 2, 3, 4, 5, 6, 7], needsSlot prop
      (disconnectSweep prop [1, 2, 3, 4, 5, 6, 7] { s₀ with cmutexHeld := true }
        [DiscEvent.lockChildren]).1 i
  · by_cases hfreeE : ∃ x ∈ List.range' 1
        ((disconnectSweep prop [1, 2, 3, 4, 5, 6, 7] { s₀ with cmutexHeld := true }
          [DiscEvent.lockChildren]).1.pool.length - 1),
        freeDev ((disconnectSweep prop [1, 2, 3, 4, 5, 6, 7]
          { s₀ with cmutexHeld := true }
          [DiscEvent.lockChildren]).1.pool.getD x default)
    · obtain ⟨pre, i, post, hsplit, hneed, hpre⟩ := list_first_split _ _ hneedE
      obtain ⟨preIdx, idx, postIdx, hrange, hfree, hpreIdx⟩ := list_first_split _ _ hfreeE
      obtain ⟨t, hres, htk⟩ := connectSweep_found oracle prop pre i post
        (disconnectSweep prop [1, 2, 3, 4, 5, 6, 7] { s₀ with cmutexHeld := true }
          [DiscEvent.lockChildren]).1
        (disconnectSweep prop [1, 2, 3, 4, 5, 6, 7] { s₀ with cmutexHeld := true }
          [DiscEvent.lockChildren]).2 hpre hneed preIdx idx postIdx hrange hpreIdx hfree
      rw [← hsplit] at hres
      obtain ⟨tD, htD, htDk⟩ := disconnectSweep_events prop [1, 2, 3, 4, 5, 6, 7]
        { s₀ with cmutexHeld := true } [DiscEvent.lockChildren]
      obtain ⟨cD0, cD1, cD2, cD3⟩ := dc_kind_no_children_locks tD htDk
      obtain ⟨cS0, cS1, cS2, cS3⟩ := skip_kind_no_children_locks t htk
      have hupd : bragi_update_dongle_subdevs oracle s₀ prop =
          ({ (disconnectSweep prop [1, 2, 3, 4, 5, 6, 7] { s₀ with cmutexHeld := true }
              [DiscEvent.lockChildren]).1 with
              pool := modifyPool (disconnectSweep prop [1, 2, 3, 4, 5, 6, 7]
                  { s₀ with cmutexHeld := true } [DiscEvent.lockChildren]).1.pool idx
                (bragi_claim_fields (disconnectSweep prop [1, 2, 3, 4, 5, 6, 7]
                  { s₀ with cmutexHeld := true } [DiscEvent.lockChildren]).1 oracle i idx)
              children := (disconnectSweep prop [1, 2, 3, 4, 5, 6, 7]
                  { s₀ with cmutexHeld := true }
                  [DiscEvent.lockChildren]).1.children.set (i - 1) (some idx)
              cmutexHeld := false },
           (disconnectSweep prop [1, 2, 3, 4, 5, 6, 7] { s₀ with cmutexHeld := true }
              [DiscEvent.lockChildren]).2 ++ t ++
            [DiscEvent.trylockDev idx true, DiscEvent.unlockChildren,
              DiscEvent.usbTransaction idx BRAGI_VID,
              DiscEvent.usbTransaction idx BRAGI_PID, DiscEvent.setupDev idx]) := by
        unfold bragi_update_dongle_subdevs
        simp only
        rw [hres]
      have hpool_final : ∀ y, (bragi_update_dongle_subdevs oracle s₀ prop).1.pool.getD y
          default = (modifyPool (disconnectSweep prop [1, 2, 3, 4, 5, 6, 7]
            { s₀ with cmutexHeld := true } [DiscEvent.lockChildren]).1.pool idx
            (bragi_claim_fields (disconnectSweep prop [1, 2, 3, 4, 5, 6, 7]
              { s₀ with cmutexHeld := true } [DiscEvent.lockChildren]).1 oracle i
              idx)).getD y default := by
        intro y
        rw [hupd]
      have hev : (bragi_update_dongle_subdevs oracle s₀ prop).2 =
          DiscEvent.lockChildren :: (tD ++ t ++
            [DiscEvent.trylockDev idx true, DiscEvent.unlockChildren,
              DiscEvent.usbTransaction idx BRAGI_VID,
              DiscEvent.usbTransaction idx BRAGI_PID, DiscEvent.setupDev idx]) := by
        rw [hupd]
        simp only
        rw [htD]
        simp
      have hpoolD : ∀ x, (disconnectSweep prop [1, 2, 3, 4, 5, 6, 7]
          { s₀ with cmutexHeld := true } [DiscEvent.lockChildren]).1.pool.getD x
          default = s₀.pool.getD x default :=
        fun x => disconnectSweep_pool_getD prop _ _ _ x
          (fun j _ ci hc => hheld (j - 1) ci hc)
      have hidxlt : idx < (disconnectSweep prop [1, 2, 3, 4, 5, 6, 7]
          { s₀ with cmutexHeld := true } [DiscEvent.lockChildren]).1.pool.length := by
        have hmem : idx ∈ List.range' 1 ((disconnectSweep prop [1, 2, 3, 4, 5, 6, 7]
            { s₀ with cmutexHeld := true } [DiscEvent.lockChildren]).1.pool.length - 1) := by
          rw [hrange]
          simp
        have := List.mem_range'_1.mp hmem
        omega
      refine ⟨?_, ?_, ?_, ?_, ?_, ?_⟩
      · rw [hev]
        simp [List.count_cons, List.count_append, cD0, cS0]
      · rw [hev]
        simp [List.count_cons, List.count_append, cD1, cS1]
      · rw [hev]
        rfl
      · rw [hupd]
      · refine ⟨DiscEvent.lockChildren :: (tD ++ t ++ [DiscEvent.trylockDev idx true]),
          [DiscEvent.usbTransaction idx BRAGI_VID, DiscEvent.usbTransaction idx BRAGI_PID,
            DiscEvent.setupDev idx], ?_, ?_⟩
        · rw [hev]
          simp
        · intro e he
          rcases List.mem_cons.mp he with rfl | he'
          · rfl
          · rcases List.mem_append.mp he' with h | h
            · rcases List.mem_append.mp h with h' | h'
              · exact cD3 e h'
              · exact cS3 e h'
            · simp at h
              subst h
              rfl
      · intro x
        have hsetupmem : DiscEvent.setupDev idx ∈
            (bragi_update_dongle_subdevs oracle s₀ prop).2 := by
          rw [hev]
          simp
        constructor
        · intro hmem
          have hxidx : x = idx := by
            rw [hev] at hmem
            rcases List.mem_cons.mp hmem with h | h
            · simp at h
            · rcases List.mem_append.mp h with h' | h'
              · rcases List.mem_append.mp h' with h'' | h''
                · exact absurd h'' (cD2 x)
                · exact absurd h'' (cS2 x)
              · simpa using h'
          subst hxidx
          constructor
          · rw [hpool_final x, modifyPool_getD_self _ _ _ hidxlt]
            rfl
          · rw [hev]
            have hconcat : DiscEvent.lockChildren :: (tD ++ t ++
                [DiscEvent.trylockDev x true, DiscEvent.unlockChildren,
                  DiscEvent.usbTransaction x BRAGI_VID,
                  DiscEvent.usbTransaction x BRAGI_PID, DiscEvent.setupDev x]) =
                (DiscEvent.lockChildren :: (tD ++ t ++
                  [DiscEvent.trylockDev x true, DiscEvent.unlockChildren,
                    DiscEvent.usbTransaction x BRAGI_VID,
                    DiscEvent.usbTransaction x BRAGI_PID])) ++
                  [DiscEvent.setupDev x] := by
              simp
            rw [hconcat, List.getLast?_concat]
        · intro hnotmem
          have hxidx : x ≠ idx := fun he => hnotmem (he ▸ hsetupmem)
          rw [hpool_final x, modifyPool_getD_ne _ _ _ _ hxidx, hpoolD x]
    · have hnofree : ∀ x ∈ List.range' 1
          ((disconnectSweep prop [1, 2, 3, 4, 5, 6, 7] { s₀ with cmutexHeld := true }
            [DiscEvent.lockChildren]).1.pool.length - 1),
          ¬ freeDev ((disconnectSweep prop [1, 2, 3, 4, 5, 6, 7]
            { s₀ with cmutexHeld := true }
            [DiscEvent.lockChildren]).1.pool.getD x default) := by
        push_neg at hfreeE
        exact hfreeE
      obtain ⟨t, hres, htk, -⟩ := connectSweep_nofree oracle prop [1, 2, 3, 4, 5, 6, 7]
        (disconnectSweep prop [1, 2, 3, 4, 5, 6, 7] { s₀ with cmutexHeld := true }
          [DiscEvent.lockChildren]).1
        (disconnectSweep prop [1, 2, 3, 4, 5, 6, 7] { s₀ with cmutexHeld := true }
          [DiscEvent.lockChildren]).2 hnofree
      exact bragi_discovery_lock_noclaim oracle s₀ prop hheld t htk hres
  · have hnone : ∀ i ∈ [1, 2, 3, 4, 5, 6, 7], ¬ needsSlot prop
        (disconnectSweep prop [1, 2, 3, 4, 5, 6, 7] { s₀ with cmutexHeld := true }
          [DiscEvent.lockChildren]).1 i := by
      push_neg at hneedE
      exact hneedE
    have hres := connectSweep_noop oracle prop [1, 2, 3, 4, 5, 6, 7]
      (disconnectSweep prop [1, 2, 3, 4, 5, 6, 7] { s₀ with cmutexHeld := true }
        [DiscEvent.lockChildren]).1
      (disconnectSweep prop [1, 2, 3, 4, 5, 6, 7] { s₀ with cmutexHeld := true }
        [DiscEvent.lockChildren]).2 hnone
    apply bragi_discovery_lock_noclaim oracle s₀ prop hheld [] (by simp)
    rw [hres]
    simp

/-- Witness for C7 at a concrete input: bit 1 requests a slot, the pool has
a free entry, and all invariants of `BragiDiscoveryLockOk` hold. -/
theorem bragi_discovery_lock_spec_witness :
    (∀ p ci, (⟨64, false, [none, some 2, none, none, none, none, none],
        [default, ⟨0, false, 7, none, 64, 1, 0, 0, 0⟩,
          ⟨2, false, 7, some (), 64, 1, 2, 0, 0⟩]⟩ :
        DongleState).children.getD p none = some ci →
      (((⟨64, false, [none, some 2, none, none, none, none, none],
        [default, ⟨0, false, 7, none, 64, 1, 0, 0, 0⟩,
          ⟨2, false, 7, some (), 64, 1, 2, 0, 0⟩]⟩ :
        DongleState).pool.getD ci default).dmutexHeld = false)) ∧
    BragiDiscoveryLockOk (fun _ _ => 0x1b1c)
      ⟨64, false, [none, some 2, none, none, none, none, none],
        [default, ⟨0, false, 7, none, 64, 1, 0, 0, 0⟩,
          ⟨2, false, 7, some (), 64, 1, 2, 0, 0⟩]⟩ 6 := by
  have hheld : ∀ p ci, (⟨64, false, [none, some 2, none, none, none, none, none],
      [default, ⟨0, false, 7, none, 64, 1, 0, 0, 0⟩,
        ⟨2, false, 7, some (), 64, 1, 2, 0, 0⟩]⟩ :
      DongleState).children.getD p none = some ci →
      (((⟨64, false, [none, some 2, none, none, none, none, none],
        [default, ⟨0, false, 7, none, 64, 1, 0, 0, 0⟩,
          ⟨2, false, 7, some (), 64, 1, 2, 0, 0⟩]⟩ :
        DongleState).pool.getD ci default).dmutexHeld = false) := by
    intro p ci hc
    by_cases hp : p < 7
    · interval_cases p <;> simp_all <;> subst hc <;> decide
    · rw [List.getD_eq_getElem?_getD, List.getElem?_eq_none (by simp; omega)] at hc
      simp at hc
  exact ⟨hheld, bragi_discovery_lock_spec (fun _ _ => 0x1b1c) _ 6 hheld⟩
